import Mathlib

/-!
Verification development for the canonizer-registry tools.

The repository has two Python programs:

* `tools/validate.py` — `RegistryValidator` walks the on-disk registry,
  accumulates error/warning strings, and yields a pass/fail verdict
  (`validate_all`, `check_structure`, `check_transforms`,
  `_validate_transform`, `_compute_sha256`, `_run_golden_test`,
  `check_schemas`, `_validate_schema`, `main`).
* `tools/generate_index.py` — `IndexGenerator` builds the
  `REGISTRY_INDEX.json` catalog (`generate`, `_collect_transforms`,
  `_read_transform_meta`, `_collect_schemas`).

This file is a shallow embedding of those programs:

* Parsed YAML/JSON documents are modelled by the inductive `YVal`
  (Python `None`/`bool`/`int`/`str`/`list`/`dict`; mapping keys are
  strings, as everywhere in this registry's metadata; float scalars do
  not occur in the data the claims are about and are not modelled).
* Python's dynamic attribute/subscript/membership operations are
  modelled by `pyGet`, `pyIndex`, `pyIn`, `pyIterElems`, each returning
  `Except PyErr _` so that the `TypeError`/`AttributeError`/`KeyError`
  raised on wrongly-shaped data is explicit.
* The mutable `self.errors` / `self.warnings` lists are an explicit
  `VState` threaded through every function; functions that can raise
  return `Except PyErr α × VState` so state appended before a raise is
  preserved, exactly as the Python object's lists would be.
* The filesystem is a passive data model: a flat list of version
  directories for the validator (the three nested `iterdir` loops of
  `check_transforms` factor through the flattened enumeration sequence)
  and the nested directory tree for the index generator (whose grouping
  depends on the nesting).  Hidden (dot-prefixed) entries and non-dirs
  are skipped by the source before any observable action, so the model
  lists contain the surviving entries, in enumeration order.
* The external JSONata evaluator and the jsonschema meta-validator are
  black boxes per the spec; they are parameters (`Evaluator`,
  `SchemaChecker`) of the functions that invoke them.
* SHA-256 is implemented in full (FIPS 180-4) over byte lists
  (`List (Fin 256)`), mirroring `_compute_sha256`'s byte-exact
  `hashlib.sha256(...).hexdigest()`.
-/

namespace Canonizer

/-- Parsed YAML/JSON value: the result of `yaml.safe_load` / `json.load`
as used by both tools.  Mapping keys are strings (true of all registry
metadata); key lists are in document order and have unique keys, as a
parsed Python `dict` does. -/
inductive YVal where
  | null : YVal
  | bool : Bool → YVal
  | int : Int → YVal
  | str : String → YVal
  | list : List YVal → YVal
  | map : List (String × YVal) → YVal
deriving Repr

/-- Python exceptions that the modelled code can raise. -/
inductive PyErr where
  | typeError : String → PyErr
  | attributeError : String → PyErr
  | keyError : String → PyErr
deriving DecidableEq, Repr

mutual

/-- Structural equality test on `YVal` (used on canonicalised values). -/
def ybeq : YVal → YVal → Bool
  | .null, .null => true
  | .bool a, .bool b => a == b
  | .int a, .int b => a == b
  | .str a, .str b => a == b
  | .list a, .list b => ybeqList a b
  | .map a, .map b => ybeqMap a b
  | _, _ => false

/-- Pointwise `ybeq` on lists. -/
def ybeqList : List YVal → List YVal → Bool
  | [], [] => true
  | a :: as, b :: bs => ybeq a b && ybeqList as bs
  | _, _ => false

/-- Pointwise key/value `ybeq` on mapping entry lists. -/
def ybeqMap : List (String × YVal) → List (String × YVal) → Bool
  | [], [] => true
  | a :: as, b :: bs => a.1 == b.1 && ybeq a.2 b.2 && ybeqMap as bs
  | _, _ => false

end

mutual

/-- Canonical form for Python `==` comparison of parsed JSON/YAML data:
`True`/`False` compare equal to `1`/`0` (Python bools are ints), and
`dict` comparison ignores key order, so bools become ints and mapping
entries are sorted by key. -/
def canon : YVal → YVal
  | .null => .null
  | .bool b => .int (if b then 1 else 0)
  | .int n => .int n
  | .str s => .str s
  | .list xs => .list (canonList xs)
  | .map kvs => .map (List.mergeSort (canonMap kvs) (fun a b => decide (a.1 ≤ b.1)))

/-- `canon` mapped over a list. -/
def canonList : List YVal → List YVal
  | [] => []
  | x :: xs => canon x :: canonList xs

/-- `canon` mapped over mapping values. -/
def canonMap : List (String × YVal) → List (String × YVal)
  | [] => []
  | p :: ps => (p.1, canon p.2) :: canonMap ps

end

/-- Python `==` on parsed JSON/YAML values (deep structural equality;
order-insensitive for mappings, order-sensitive for sequences,
`True == 1`).  `!=` is its negation. -/
def pyEqb (a b : YVal) : Bool := ybeq (canon a) (canon b)

/-- First-match association-list lookup: Python `dict` access on the
parsed mapping (keys are unique, so first match is the match). -/
def yget? (kvs : List (String × YVal)) (k : String) : Option YVal :=
  (kvs.find? (fun p => p.1 == k)).map (·.2)

/-- Is `needle` a contiguous substring of `hay` (Python `sub in s`)? -/
def charsContain (hay needle : List Char) : Bool :=
  match hay with
  | [] => needle.isEmpty
  | _ :: t => needle.isPrefixOf hay || charsContain t needle

/-- Python `k in v` for a string key `k`: key test on a dict, substring
test on a str, element test (by `==`) on a list, `TypeError` otherwise. -/
def pyIn (k : String) (v : YVal) : Except PyErr Bool :=
  match v with
  | .map kvs => .ok (kvs.any (fun p => p.1 == k))
  | .str s => .ok (charsContain s.data k.data)
  | .list xs => .ok (xs.any (fun x => pyEqb x (.str k)))
  | .null => .error (.typeError "argument of type \x27NoneType\x27 is not iterable")
  | .bool _ => .error (.typeError "argument of type \x27bool\x27 is not iterable")
  | .int _ => .error (.typeError "argument of type \x27int\x27 is not iterable")

/-- Python `v.get(k, dflt)`: only dicts have `.get`; every other value
raises `AttributeError`. -/
def pyGet (v : YVal) (k : String) (dflt : YVal) : Except PyErr YVal :=
  match v with
  | .map kvs => .ok ((yget? kvs k).getD dflt)
  | .null => .error (.attributeError "\x27NoneType\x27 object has no attribute \x27get\x27")
  | .bool _ => .error (.attributeError "\x27bool\x27 object has no attribute \x27get\x27")
  | .int _ => .error (.attributeError "\x27int\x27 object has no attribute \x27get\x27")
  | .str _ => .error (.attributeError "\x27str\x27 object has no attribute \x27get\x27")
  | .list _ => .error (.attributeError "\x27list\x27 object has no attribute \x27get\x27")

/-- Python `v[k]` for a string key `k`: dict lookup (`KeyError` when
absent); `TypeError` on every non-dict. -/
def pyIndex (v : YVal) (k : String) : Except PyErr YVal :=
  match v with
  | .map kvs =>
    match yget? kvs k with
    | some x => .ok x
    | none => .error (.keyError k)
  | .str _ => .error (.typeError "string indices must be integers")
  | .list _ => .error (.typeError "list indices must be integers or slices, not str")
  | .null => .error (.typeError "\x27NoneType\x27 object is not subscriptable")
  | .bool _ => .error (.typeError "\x27bool\x27 object is not subscriptable")
  | .int _ => .error (.typeError "\x27int\x27 object is not subscriptable")

/-- Python `for x in v`: elements of a list, one-character strings of a
str, keys of a dict; `TypeError` otherwise. -/
def pyIterElems (v : YVal) : Except PyErr (List YVal) :=
  match v with
  | .list xs => .ok xs
  | .str s => .ok (s.data.map (fun c => .str (String.mk [c])))
  | .map kvs => .ok (kvs.map (fun p => .str p.1))
  | .null => .error (.typeError "\x27NoneType\x27 object is not iterable")
  | .bool _ => .error (.typeError "\x27bool\x27 object is not iterable")
  | .int _ => .error (.typeError "\x27int\x27 object is not iterable")

mutual

/-- Python `repr` of a parsed JSON/YAML value (string escaping inside
reprs is not reproduced; no claim depends on it). -/
def pyRepr : YVal → String
  | .null => "None"
  | .bool true => "True"
  | .bool false => "False"
  | .int n => toString n
  | .str s => "\x27" ++ s ++ "\x27"
  | .list xs => "[" ++ String.intercalate ", " (pyReprList xs) ++ "]"
  | .map kvs => "\x7b" ++ String.intercalate ", " (pyReprMap kvs) ++ "\x7d"

/-- `pyRepr` mapped over list elements. -/
def pyReprList : List YVal → List String
  | [] => []
  | x :: xs => pyRepr x :: pyReprList xs

/-- `pyRepr` mapped over mapping entries. -/
def pyReprMap : List (String × YVal) → List String
  | [] => []
  | p :: ps => ("\x27" ++ p.1 ++ "\x27: " ++ pyRepr p.2) :: pyReprMap ps

end

/-- Python `str()` of a parsed value, as used by f-string interpolation:
a str interpolates as itself, every other value as its repr. -/
def pyStrOf : YVal → String
  | .str s => s
  | v => pyRepr v

/-- JSON string escaping for `json.dumps` (quote and backslash; control
characters do not occur in the data the claims are about). -/
def jsonEscape (s : String) : String :=
  s.data.foldl
    (fun acc c =>
      if c = '"' then acc ++ "\\\""
      else if c = '\\' then acc ++ "\\\\"
      else acc.push c)
    ""

mutual

/-- Python `json.dumps(v, indent=2)` rendered at indentation `lvl`
(nesting depth × 2 spaces), as used for the golden-test mismatch
previews. -/
def jsonDumps : YVal → Nat → String
  | .null, _ => "null"
  | .bool true, _ => "true"
  | .bool false, _ => "false"
  | .int n, _ => toString n
  | .str s, _ => "\"" ++ jsonEscape s ++ "\""
  | .list [], _ => "[]"
  | .list (x :: xs), lvl =>
    "[\n" ++ String.intercalate ",\n" (jsonDumpsList (x :: xs) (lvl + 2)) ++
      "\n" ++ String.mk (List.replicate lvl ' ') ++ "]"
  | .map [], _ => "\x7b\x7d"
  | .map (p :: ps), lvl =>
    "\x7b\n" ++ String.intercalate ",\n" (jsonDumpsMap (p :: ps) (lvl + 2)) ++
      "\n" ++ String.mk (List.replicate lvl ' ') ++ "\x7d"

/-- `jsonDumps` over list elements, each on its own indented line. -/
def jsonDumpsList : List YVal → Nat → List String
  | [], _ => []
  | x :: xs, lvl =>
    (String.mk (List.replicate lvl ' ') ++ jsonDumps x lvl) :: jsonDumpsList xs lvl

/-- `jsonDumps` over mapping entries, each on its own indented line. -/
def jsonDumpsMap : List (String × YVal) → Nat → List String
  | [], _ => []
  | p :: ps, lvl =>
    (String.mk (List.replicate lvl ' ') ++ "\"" ++ jsonEscape p.1 ++ "\": " ++
      jsonDumps p.2 lvl) :: jsonDumpsMap ps lvl

end

/-- A truncated `json.dumps(v, indent=2)[:200]` preview (Python slices
strings by code points, as `String.take` does). -/
def dumpsPreview (v : YVal) : String := (jsonDumps v 0).take 200

/-! ### SHA-256 (FIPS 180-4), the algorithm behind
`hashlib.sha256(file_bytes).hexdigest()` in `_compute_sha256`. -/

/-- One byte of file content. -/
abbrev Byte := Fin 256

/-- Reduce to a 32-bit word. -/
def w32 (n : Nat) : Nat := n % 4294967296

/-- Right-rotation of a 32-bit word. -/
def rotr32 (k x : Nat) : Nat := w32 ((x >>> k) ||| (x <<< (32 - k)))

/-- SHA-256 `Σ₀`. -/
def bsig0 (x : Nat) : Nat := rotr32 2 x ^^^ rotr32 13 x ^^^ rotr32 22 x

/-- SHA-256 `Σ₁`. -/
def bsig1 (x : Nat) : Nat := rotr32 6 x ^^^ rotr32 11 x ^^^ rotr32 25 x

/-- SHA-256 `σ₀`. -/
def ssig0 (x : Nat) : Nat := rotr32 7 x ^^^ rotr32 18 x ^^^ (x >>> 3)

/-- SHA-256 `σ₁`. -/
def ssig1 (x : Nat) : Nat := rotr32 17 x ^^^ rotr32 19 x ^^^ (x >>> 10)

/-- SHA-256 `Ch` (¬x taken within 32 bits). -/
def chf (x y z : Nat) : Nat := (x &&& y) ^^^ ((x ^^^ 4294967295) &&& z)

/-- SHA-256 `Maj`. -/
def majf (x y z : Nat) : Nat := (x &&& y) ^^^ (x &&& z) ^^^ (y &&& z)

/-- The 64 SHA-256 round constants. -/
def sha256K : List Nat :=
  [1116352408, 1899447441, 3049323471, 3921009573, 961987163, 1508970993,
   2453635748, 2870763221, 3624381080, 310598401, 607225278, 1426881987,
   1925078388, 2162078206, 2614888103, 3248222580, 3835390401, 4022224774,
   264347078, 604807628, 770255983, 1249150122, 1555081692, 1996064986,
   2554220882, 2821834349, 2952996808, 3210313671, 3336571891, 3584528711,
   113926993, 338241895, 666307205, 773529912, 1294757372, 1396182291,
   1695183700, 1986661051, 2177026350, 2456956037, 2730485921, 2820302411,
   3259730800, 3345764771, 3516065817, 3600352804, 4094571909, 275423344,
   430227734, 506948616, 659060556, 883997877, 958139571, 1322822218,
   1537002063, 1747873779, 1955562222, 2024104815, 2227730452, 2361852424,
   2428436474, 2756734187, 3204031479, 3329325298]

/-- Eight 32-bit working/hash words of the SHA-256 state. -/
structure H8 where
  a : Nat
  b : Nat
  c : Nat
  d : Nat
  e : Nat
  f : Nat
  g : Nat
  h : Nat
deriving DecidableEq, Repr

/-- The SHA-256 initial hash value. -/
def sha256H0 : H8 :=
  ⟨1779033703, 3144134277, 1013904242, 2773480762,
   1359893119, 2600822924, 528734635, 1541459225⟩

/-- Big-endian 8-byte encoding of the message bit length. -/
def be64 (n : Nat) : List Nat :=
  [(n >>> 56) &&& 255, (n >>> 48) &&& 255, (n >>> 40) &&& 255,
   (n >>> 32) &&& 255, (n >>> 24) &&& 255, (n >>> 16) &&& 255,
   (n >>> 8) &&& 255, n &&& 255]

/-- SHA-256 message padding: `0x80`, zeros to 56 mod 64, then the
64-bit big-endian bit length. -/
def shaPad (msg : List Nat) : List Nat :=
  let L := msg.length
  let k := (64 + 56 - ((L + 1) % 64)) % 64
  msg ++ [128] ++ List.replicate k 0 ++ be64 ((8 * L) % 18446744073709551616)

/-- Split a byte stream into 64-byte blocks (`fuel` bounds the number of
steps; each step consumes at least one byte, so `l.length` is enough). -/
def chunksGo : Nat → List Nat → List (List Nat)
  | _, [] => []
  | 0, _ :: _ => []
  | fuel + 1, x :: xs => (x :: xs).take 64 :: chunksGo fuel ((x :: xs).drop 64)

/-- Split the padded byte stream into 64-byte blocks. -/
def chunks64 (l : List Nat) : List (List Nat) := chunksGo l.length l

/-- One big-endian 32-bit word from four bytes. -/
def beWord (b0 b1 b2 b3 : Nat) : Nat :=
  (b0 <<< 24) ||| (b1 <<< 16) ||| (b2 <<< 8) ||| b3

/-- The sixteen message words of one 64-byte block. -/
def blockWords (blk : List Nat) : List Nat :=
  match blk with
  | b0 :: b1 :: b2 :: b3 :: rest => beWord b0 b1 b2 b3 :: blockWords rest
  | _ => []

/-- Extend the message schedule by `n` further words. -/
def extendSchedule (ws : List Nat) : Nat → List Nat
  | 0 => ws
  | n + 1 =>
    let L := ws.length
    let w := w32 (ssig1 (ws.getD (L - 2) 0) + ws.getD (L - 7) 0 +
      ssig0 (ws.getD (L - 15) 0) + ws.getD (L - 16) 0)
    extendSchedule (ws ++ [w]) n

/-- One SHA-256 compression round. -/
def shaRound (s : H8) (kw : Nat × Nat) : H8 :=
  let t1 := w32 (s.h + bsig1 s.e + chf s.e s.f s.g + kw.1 + kw.2)
  let t2 := w32 (bsig0 s.a + majf s.a s.b s.c)
  ⟨w32 (t1 + t2), s.a, s.b, s.c, w32 (s.d + t1), s.e, s.f, s.g⟩

/-- Compress one 64-byte block into the running hash state. -/
def compressBlock (s : H8) (blk : List Nat) : H8 :=
  let ws := extendSchedule (blockWords blk) 48
  let t := (sha256K.zip ws).foldl shaRound s
  ⟨w32 (s.a + t.a), w32 (s.b + t.b), w32 (s.c + t.c), w32 (s.d + t.d),
   w32 (s.e + t.e), w32 (s.f + t.f), w32 (s.g + t.g), w32 (s.h + t.h)⟩

/-- The eight SHA-256 hash words of a byte string. -/
def sha256Words (msg : List Byte) : H8 :=
  (chunks64 (shaPad (msg.map (·.val)))).foldl compressBlock sha256H0

/-- One lowercase hex digit. -/
def hexDigit (n : Nat) : Char :=
  if n < 10 then Char.ofNat (48 + n) else Char.ofNat (87 + n)

/-- Lowercase 8-hex-digit rendering of a 32-bit word. -/
def wordHex (w : Nat) : String :=
  String.mk [hexDigit ((w >>> 28) &&& 15), hexDigit ((w >>> 24) &&& 15),
    hexDigit ((w >>> 20) &&& 15), hexDigit ((w >>> 16) &&& 15),
    hexDigit ((w >>> 12) &&& 15), hexDigit ((w >>> 8) &&& 15),
    hexDigit ((w >>> 4) &&& 15), hexDigit (w &&& 15)]

/-- `hashlib.sha256(msg).hexdigest()`: the lowercase-hex SHA-256 digest,
as computed by `_compute_sha256` on the expression file's raw bytes. -/
def sha256hex (msg : List Byte) : String :=
  let s := sha256Words msg
  wordHex s.a ++ wordHex s.b ++ wordHex s.c ++ wordHex s.d ++
    wordHex s.e ++ wordHex s.f ++ wordHex s.g ++ wordHex s.h

/-! ### The validator (`tools/validate.py`) -/

/-- The validator's mutable accumulators `self.errors` / `self.warnings`
(lists of message strings, in append order). -/
structure VState where
  errors : List String
  warnings : List String
deriving DecidableEq, Repr

/-- `self.errors.append e`. -/
def VState.addErr (st : VState) (e : String) : VState :=
  { st with errors := st.errors ++ [e] }

/-- `self.warnings.append w`. -/
def VState.addWarn (st : VState) (w : String) : VState :=
  { st with warnings := st.warnings ++ [w] }

/-- The freshly-constructed validator's state (`RegistryValidator.__init__`). -/
def emptyVState : VState := ⟨[], []⟩

/-- The external JSONata engine (`jsonata.Jsonata(...)` construction plus
`.evaluate(input)`): from expression source and parsed input to a parsed
output, or an exception message for a malformed expression / evaluation
error.  A black box per the spec. -/
def Evaluator : Type := String → YVal → Except String YVal

/-- The external `Draft7Validator.check_schema`: `none` on success, the
`JSONSchemaValidationError` message otherwise.  A black box per the spec. -/
def SchemaChecker : Type := YVal → Option String

/-- One version directory `transforms/<category>/<tname>/<version>/` as
the validator sees it.  `metaParse` is the outcome of
`yaml.safe_load(spec.meta.yaml)` (exception message or parsed value);
`files` maps the relative paths of the files that exist inside the
version directory to their `json.load` outcome; `jsonataText` is the
text read from `spec.jsonata`, `jsonataBytes` its raw bytes. -/
structure VUnit where
  category : String
  tname : String
  version : String
  hasJsonata : Bool
  jsonataBytes : List Byte
  jsonataText : String
  hasMeta : Bool
  metaParse : Except String YVal
  hasTestsDir : Bool
  files : List (String × Except String YVal)

/-- The registry as the validator sees it: which required top-level
directories exist, plus the version directories and schema files in
filesystem enumeration order (dot-prefixed and non-directory entries
already skipped, as the source's loops do before any observable
action). -/
structure Registry where
  root : String
  hasTransformsDir : Bool
  hasSchemasDir : Bool
  hasToolsDir : Bool
  hasWorkflowsDir : Bool
  units : List VUnit
  schemaFiles : List SchemaFileRec

/-- One file `schemas/<vendor>/<sname>/jsonschema/<stem>.json`, with its
`json.load` outcome. -/
structure SchemaFileRec where
  vendor : String
  sname : String
  stem : String
  parse : Except String YVal

/-- The `"category/name"` transform id derived from the directory names
(`check_transforms`, line 122). -/
def VUnit.tid (u : VUnit) : String := u.category ++ "/" ++ u.tname

/-- The `"id@version"` prefix of every per-unit diagnostic message. -/
def VUnit.tag (u : VUnit) : String := u.tid ++ "@" ++ u.version

/-- `check_structure` (lines 79–96): walk the required directories in
order; the first missing one appends one error and returns `False`
immediately; otherwise return `True`. -/
def checkDirs : List (Bool × String) → VState → Bool × VState
  | [], st => (true, st)
  | (ex, p) :: rest, st =>
    if ex then checkDirs rest st
    else (false, st.addErr ("Missing required directory: " ++ p))

/-- The required top-level directories, in the order `check_structure`
tests them. -/
def requiredDirList (reg : Registry) : List (Bool × String) :=
  [(reg.hasTransformsDir, reg.root ++ "/transforms"),
   (reg.hasSchemasDir, reg.root ++ "/schemas"),
   (reg.hasToolsDir, reg.root ++ "/tools"),
   (reg.hasWorkflowsDir, reg.root ++ "/.github/workflows")]

/-- `RegistryValidator.check_structure`. -/
def checkStructure (reg : Registry) (st : VState) : Bool × VState :=
  checkDirs (requiredDirList reg) st

/-- The `required_fields` list of `_validate_transform` (line 172). -/
def requiredFields : List String :=
  ["id", "version", "engine", "from_schema", "to_schema", "tests",
   "checksum", "provenance", "status"]

/-- Sequencing of two fallible checks sharing the accumulator: Python's
`success` flag is the conjunction, an uncaught exception aborts but
keeps the state appended so far. -/
def seqAnd (r : Except PyErr Bool × VState)
    (k : VState → Except PyErr Bool × VState) : Except PyErr Bool × VState :=
  match r with
  | (.error e, st) => (.error e, st)
  | (.ok b, st) =>
    match k st with
    | (.error e, st') => (.error e, st')
    | (.ok b', st') => (.ok (b && b'), st')

/-- The `for field in required_fields` loop (lines 173–176): each absent
field appends its own error and clears `success`; `field not in meta`
raises `TypeError` when `meta` is not a container. -/
def requiredFieldsLoop (tag : String) (meta : YVal) :
    List String → VState → Except PyErr Bool × VState
  | [], st => (.ok true, st)
  | f :: fs, st =>
    match pyIn f meta with
    | .error e => (.error e, st)
    | .ok true => requiredFieldsLoop tag meta fs st
    | .ok false =>
      seqAnd (.ok false, st.addErr (tag ++ ": Missing required field: " ++ f))
        (requiredFieldsLoop tag meta fs)

/-- Lines 179–181: `meta.get("id") != expected_id` is an ID-mismatch
error. -/
def idCheck (tag tid : String) (meta : YVal) (st : VState) :
    Except PyErr Bool × VState :=
  match pyGet meta "id" .null with
  | .error e => (.error e, st)
  | .ok v =>
    if pyEqb v (.str tid) then (.ok true, st)
    else (.ok false, st.addErr (tag ++ ": ID mismatch (expected " ++ tid ++
      ", got " ++ pyStrOf v ++ ")"))

/-- Lines 184–186: `meta.get("version") != expected_version`. -/
def versionCheck (tag ver : String) (meta : YVal) (st : VState) :
    Except PyErr Bool × VState :=
  match pyGet meta "version" .null with
  | .error e => (.error e, st)
  | .ok v =>
    if pyEqb v (.str ver) then (.ok true, st)
    else (.ok false, st.addErr (tag ++ ": Version mismatch (expected " ++ ver ++
      ", got " ++ pyStrOf v ++ ")"))

/-- Lines 189–191: `meta.get("engine") != "jsonata"`. -/
def engineCheck (tag : String) (meta : YVal) (st : VState) :
    Except PyErr Bool × VState :=
  match pyGet meta "engine" .null with
  | .error e => (.error e, st)
  | .ok v =>
    if pyEqb v (.str "jsonata") then (.ok true, st)
    else (.ok false, st.addErr (tag ++
      ": Invalid engine (must be \x27jsonata\x27)"))

/-- Lines 193–200: when `"checksum" in meta and "jsonata_sha256" in
meta["checksum"]`, recompute the SHA-256 of the expression file's bytes
and compare with the declared digest by Python `!=`; a mismatch appends
an error naming both digests.  Without a declared digest nothing is
checked and nothing is appended. -/
def checksumStep (tag : String) (meta : YVal) (bytes : List Byte)
    (st : VState) : Except PyErr Bool × VState :=
  match pyIn "checksum" meta with
  | .error e => (.error e, st)
  | .ok false => (.ok true, st)
  | .ok true =>
    match pyIndex meta "checksum" with
    | .error e => (.error e, st)
    | .ok cs =>
      match pyIn "jsonata_sha256" cs with
      | .error e => (.error e, st)
      | .ok false => (.ok true, st)
      | .ok true =>
        match pyIndex cs "jsonata_sha256" with
        | .error e => (.error e, st)
        | .ok declared =>
          let actual := sha256hex bytes
          if pyEqb declared (.str actual) then (.ok true, st)
          else (.ok false, st.addErr (tag ++ ": Checksum mismatch (expected " ++
            pyStrOf declared ++ ", got " ++ actual ++ ")"))

/-- `_run_golden_test` (lines 230–261): everything is inside one
`try/except`, so this never raises — parse failures, evaluator
exceptions and output mismatches all append errors and return `False`.
`dirPath` is the version directory's path (for the `Input:` line). -/
def runGoldenTest (ev : Evaluator) (u : VUnit) (dirPath inpS expS : String)
    (st : VState) : Bool × VState :=
  match (u.files.find? (fun p => p.1 == inpS)).map (·.2) with
  | none =>
    (false, st.addErr (u.tag ++ ": Golden test error: [Errno 2] No such file or directory"))
  | some (.error e) => (false, st.addErr (u.tag ++ ": Golden test error: " ++ e))
  | some (.ok inputData) =>
    match (u.files.find? (fun p => p.1 == expS)).map (·.2) with
    | none =>
      (false, st.addErr (u.tag ++ ": Golden test error: [Errno 2] No such file or directory"))
    | some (.error e) => (false, st.addErr (u.tag ++ ": Golden test error: " ++ e))
    | some (.ok expected) =>
      match ev u.jsonataText inputData with
      | .error e => (false, st.addErr (u.tag ++ ": Golden test error: " ++ e))
      | .ok actual =>
        if pyEqb actual expected then (true, st)
        else
          (false,
            ((((st.addErr (u.tag ++ ": Golden test failed")).addErr
              ("  Input: " ++ dirPath ++ "/" ++ inpS)).addErr
              ("  Expected: " ++ dumpsPreview expected ++ "...")).addErr
              ("  Actual: " ++ dumpsPreview actual ++ "...")))

/-- One iteration of the `for test_spec in meta["tests"]` loop
(lines 204–219): index `test_spec["input"]` and `test_spec["expect"]`
(either can raise on a malformed entry), check both files exist
(a missing one appends an error and skips the unit's test), then run the
golden test. -/
def goldenOne (ev : Evaluator) (u : VUnit) (dirPath : String) (spec : YVal)
    (st : VState) : Except PyErr Bool × VState :=
  match pyIndex spec "input" with
  | .error e => (.error e, st)
  | .ok inp =>
    match pyIndex spec "expect" with
    | .error e => (.error e, st)
    | .ok exv =>
      match inp with
      | .str inpS =>
        match exv with
        | .str expS =>
          if (u.files.find? (fun p => p.1 == inpS)).isNone then
            (.ok false, st.addErr (u.tag ++ ": Test input not found: " ++ inpS))
          else if (u.files.find? (fun p => p.1 == expS)).isNone then
            (.ok false, st.addErr (u.tag ++ ": Test expected output not found: " ++ expS))
          else
            let (b, st') := runGoldenTest ev u dirPath inpS expS st
            (.ok b, st')
        | _ => (.error (.typeError "argument should be a str or an os.PathLike object"), st)
      | _ => (.error (.typeError "argument should be a str or an os.PathLike object"), st)

/-- The whole `for test_spec in meta["tests"]` loop: failures do not
stop later test cases (`success` is only cleared). -/
def goldenLoop (ev : Evaluator) (u : VUnit) (dirPath : String) :
    List YVal → VState → Except PyErr Bool × VState
  | [], st => (.ok true, st)
  | spec :: rest, st =>
    seqAnd (goldenOne ev u dirPath spec st) (goldenLoop ev u dirPath rest)

/-- Lines 203–219: golden tests run only `if JSONATA_AVAILABLE and
"tests" in meta`; iterating a non-list `meta["tests"]` follows Python
iteration semantics. -/
def goldenStep (ja : Bool) (ev : Evaluator) (u : VUnit) (dirPath : String)
    (meta : YVal) (st : VState) : Except PyErr Bool × VState :=
  if !ja then (.ok true, st)
  else
    match pyIn "tests" meta with
    | .error e => (.error e, st)
    | .ok false => (.ok true, st)
    | .ok true =>
      match pyIndex meta "tests" with
      | .error e => (.error e, st)
      | .ok tv =>
        match pyIterElems tv with
        | .error e => (.error e, st)
        | .ok specs => goldenLoop ev u dirPath specs st

/-- `RegistryValidator._validate_transform` (lines 142–221): required
files, YAML parse, required fields, id/version/engine identity,
opportunistic checksum, golden tests.  The first three failures and a
parse failure short-circuit the unit; later checks all run and `success`
is their conjunction. -/
def validateTransform (root : String) (ja : Bool) (ev : Evaluator)
    (u : VUnit) (st : VState) : Except PyErr Bool × VState :=
  let dirPath := root ++ "/transforms/" ++ u.category ++ "/" ++ u.tname ++
    "/" ++ u.version
  if !u.hasJsonata then (.ok false, st.addErr (u.tag ++ ": Missing spec.jsonata"))
  else if !u.hasMeta then (.ok false, st.addErr (u.tag ++ ": Missing spec.meta.yaml"))
  else if !u.hasTestsDir then
    (.ok false, st.addErr (u.tag ++ ": Missing tests/ directory"))
  else
    match u.metaParse with
    | .error e => (.ok false, st.addErr (u.tag ++ ": Invalid YAML: " ++ e))
    | .ok meta =>
      seqAnd (requiredFieldsLoop u.tag meta requiredFields st) (fun st =>
        seqAnd (idCheck u.tag u.tid meta st) (fun st =>
          seqAnd (versionCheck u.tag u.version meta st) (fun st =>
            seqAnd (engineCheck u.tag meta st) (fun st =>
              seqAnd (checksumStep u.tag meta u.jsonataBytes st)
                (goldenStep ja ev u dirPath meta)))))

/-- The loop state of `check_transforms` (lines 106–108): the set of
`(transform_id, version)` pairs seen, the running `success` flag, the
`transform_count` of successfully validated units, and the shared
accumulators.  `dups`, `validated` and `counted` are instrumentation
with no effect on the computation: `dups` records one entry per
execution of the duplicate branch (lines 126–129), `validated` the
units actually handed to `_validate_transform` (line 134), and
`counted` the units behind each `transform_count` increment (line
137). -/
structure TransState where
  seen : List (String × String)
  success : Bool
  count : Nat
  st : VState
  dups : List (String × String)
  validated : List VUnit
  counted : List VUnit

/-- The `for version_dir ...` body of `check_transforms` (lines 110–137)
over the flattened enumeration sequence of version directories: a
repeated `(id, version)` pair appends one duplicate error, clears
`success` and skips the unit; otherwise the unit is validated and
counted on success.  An exception from `_validate_transform` propagates
(nothing catches it here). -/
def processUnits (root : String) (ja : Bool) (ev : Evaluator) :
    List VUnit → TransState → Except PyErr TransState
  | [], ts => .ok ts
  | u :: rest, ts =>
    if ts.seen.contains (u.tid, u.version) then
      processUnits root ja ev rest
        { ts with
          success := false
          st := ts.st.addErr ("Duplicate transform: " ++ u.tid ++ "@" ++ u.version)
          dups := ts.dups ++ [(u.tid, u.version)] }
    else
      let ts := { ts with
        seen := ts.seen ++ [(u.tid, u.version)]
        validated := ts.validated ++ [u] }
      match validateTransform root ja ev u ts.st with
      | (.error e, _) => .error e
      | (.ok ok, st') =>
        processUnits root ja ev rest
          (if ok then
            { ts with st := st', count := ts.count + 1, counted := ts.counted ++ [u] }
           else { ts with st := st', success := false })

/-- The initial loop state of `check_transforms`. -/
def initTransState (st : VState) : TransState := ⟨[], true, 0, st, [], [], []⟩

/-- The `(transform_id, version)` identity of a version directory, as
tracked by the uniqueness set. -/
def VUnit.key (u : VUnit) : String × String := (u.tid, u.version)

/-- The units whose key is not yet in `seen` and not repeated earlier in
the list: exactly those the traversal hands to `_validate_transform`. -/
def firstOccs (seen : List (String × String)) : List VUnit → List VUnit
  | [] => []
  | u :: rest =>
    if seen.contains u.key then firstOccs seen rest
    else u :: firstOccs (seen ++ [u.key]) rest

/-- The keys hitting the duplicate branch, in order. -/
def dupsOf (seen : List (String × String)) : List VUnit → List (String × String)
  | [] => []
  | u :: rest =>
    if seen.contains u.key then u.key :: dupsOf seen rest
    else dupsOf (seen ++ [u.key]) rest

/-- `RegistryValidator.check_transforms` (lines 98–140) including its
final loop state (instrumented). -/
def checkTransformsFull (reg : Registry) (ja : Bool) (ev : Evaluator)
    (st : VState) : Except PyErr TransState :=
  if !reg.hasTransformsDir then
    .ok { initTransState (st.addErr ("Transforms directory not found: " ++
            reg.root ++ "/transforms")) with success := false }
  else processUnits reg.root ja ev reg.units (initTransState st)

/-- `RegistryValidator.check_transforms`, result and accumulators only. -/
def checkTransforms (reg : Registry) (ja : Bool) (ev : Evaluator)
    (st : VState) : Except PyErr Bool × VState :=
  match checkTransformsFull reg ja ev st with
  | .error e => (.error e, st)
  | .ok ts => (.ok ts.success, ts.st)

/-- `RegistryValidator._validate_schema` (lines 296–321): a parse failure
is caught (`Error validating schema`), a non-object document is a hard
error, a missing `$schema` key only a warning, and when the jsonschema
library is available a meta-validation failure is a hard error
(`Invalid JSON Schema`). -/
def validateSchema (js : Bool) (chk : SchemaChecker) (root : String)
    (sf : SchemaFileRec) (st : VState) : Bool × VState :=
  let path := root ++ "/schemas/" ++ sf.vendor ++ "/" ++ sf.sname ++
    "/jsonschema/" ++ sf.stem ++ ".json"
  match sf.parse with
  | .error e => (false, st.addErr (path ++ ": Error validating schema: " ++ e))
  | .ok schema =>
    match schema with
    | .map kvs =>
      let st := if kvs.any (fun p => p.1 == "$schema") then st
        else st.addWarn (path ++ ": Missing $schema field (recommended)")
      if js then
        match chk schema with
        | some e => (false, st.addErr (path ++ ": Invalid JSON Schema: " ++ e))
        | none => (true, st)
      else (true, st)
    | _ => (false, st.addErr (path ++ ": Schema must be a JSON object"))

/-- The schema loop of `check_schemas` (lines 275–291): `success` is the
conjunction, `schema_count` counts the valid files. -/
def schemasLoop (js : Bool) (chk : SchemaChecker) (root : String) :
    List SchemaFileRec → Bool × Nat × VState → Bool × Nat × VState
  | [], acc => acc
  | sf :: rest, (succ, cnt, st) =>
    let (ok, st') := validateSchema js chk root sf st
    schemasLoop js chk root rest
      (if ok then (succ, cnt + 1, st') else (false, cnt, st'))

/-- `RegistryValidator.check_schemas` (lines 263–294): a missing schemas
directory is only a warning (the stage still succeeds). -/
def checkSchemas (reg : Registry) (js : Bool) (chk : SchemaChecker)
    (st : VState) : Bool × VState :=
  if !reg.hasSchemasDir then
    (true, st.addWarn ("Schemas directory not found: " ++ reg.root ++ "/schemas"))
  else
    let (s, _, st') := schemasLoop js chk reg.root reg.schemaFiles (true, 0, st)
    (s, st')

/-- `RegistryValidator.validate_all` (lines 53–77): `success &=` each of
the three stages in order — `&=` does not short-circuit, so every stage
runs whatever the earlier ones returned; only an uncaught exception
(from `check_transforms`) aborts. -/
def validateAll (reg : Registry) (ja : Bool) (ev : Evaluator) (js : Bool)
    (chk : SchemaChecker) (st : VState) : Except PyErr Bool × VState :=
  let (s1, st1) := checkStructure reg st
  match checkTransforms reg ja ev st1 with
  | (.error e, st2) => (.error e, st2)
  | (.ok s2, st2) =>
    let (s3, st3) := checkSchemas reg js chk st2
    (.ok (s1 && s2 && s3), st3)

/-- `main` (lines 324–344) in its default (no stage flag) branch:
`sys.exit(0 if success else 1)` after a full `validate_all` run on a
fresh validator. -/
def mainExitCode (reg : Registry) (ja : Bool) (ev : Evaluator) (js : Bool)
    (chk : SchemaChecker) : Except PyErr Nat :=
  match validateAll reg ja ev js chk emptyVState with
  | (.ok s, _) => .ok (if s then 0 else 1)
  | (.error e, _) => .error e

/-! ### The index generator (`tools/generate_index.py`) -/

/-- A version directory as the index generator sees it: its name and the
outcome of reading `spec.meta.yaml`. -/
structure VersionDirM where
  vname : String
  hasMeta : Bool
  metaParse : Except String YVal

/-- A transform directory `transforms/<category>/<tname>/` with its
version subdirectories in enumeration order. -/
structure TransformDirM where
  tname : String
  versions : List VersionDirM

/-- A category directory with its transform subdirectories in
enumeration order. -/
structure CategoryM where
  cname : String
  tdirs : List TransformDirM

/-- A schema-set directory `schemas/<vendor>/<sname>/`, with whether its
`jsonschema/` subdirectory exists and the stems of the `*.json` files in
it, in glob enumeration order. -/
structure SchemaDirM where
  sname : String
  hasJsonschemaDir : Bool
  stems : List String

/-- A vendor directory with its schema-set subdirectories. -/
structure VendorM where
  vname : String
  sdirs : List SchemaDirM

/-- The registry as the index generator sees it (dot-prefixed and
non-directory entries already skipped, lists in filesystem enumeration
order). -/
structure Snapshot where
  hasTransformsDir : Bool
  hasSchemasDir : Bool
  categories : List CategoryM
  vendors : List VendorM

/-- The per-version entry built by `_read_transform_meta` (lines
101–120): five always-present keys plus four optional ones, `none`
meaning the key is absent from the emitted JSON object. -/
structure VEntry where
  version : YVal
  from_schema : YVal
  to_schema : YVal
  status : YVal
  path : String
  checksum : Option YVal
  author : Option YVal
  created_utc : Option YVal
  compat : Option YVal
deriving Repr

/-- Lines 110–111: emit the `checksum` key exactly when the metadata
provides one. -/
def checksumField (meta : YVal) : Except PyErr (Option YVal) := do
  let hasCk ← pyIn "checksum" meta
  if hasCk then do
    let c ← pyIndex meta "checksum"
    pure (some c)
  else pure none

/-- Lines 113–115: when a provenance block is present, emit
`author` (defaulting to `"Unknown"`) and `created_utc` (defaulting to
`None`); `.get` on a non-mapping block raises. -/
def provFields (meta : YVal) : Except PyErr (Option YVal × Option YVal) := do
  let hasPv ← pyIn "provenance" meta
  if hasPv then do
    let p ← pyIndex meta "provenance"
    let a ← pyGet p "author" (.str "Unknown")
    let c ← pyGet p "created_utc" .null
    pure (some a, some c)
  else pure (none, none)

/-- Lines 117–120: emit `compat` when `"compat" in meta and
"from_schema_range" in meta["compat"]`. -/
def compatField (meta : YVal) : Except PyErr (Option YVal) := do
  let hasCm ← pyIn "compat" meta
  if hasCm then do
    let cv ← pyIndex meta "compat"
    let hasR ← pyIn "from_schema_range" cv
    if hasR then do
      let rv ← pyIndex cv "from_schema_range"
      pure (some (YVal.map [("from_schema_range", rv)]))
    else pure none
  else pure none

/-- The entry-building body of `_read_transform_meta` (lines 98–122),
which can raise on wrongly-shaped metadata (every raise is caught by the
surrounding `try/except`): `meta.get` on a non-dict raises
`AttributeError`, a non-dict provenance block raises at `.get`, and the
compat membership test follows Python `in` semantics. -/
def buildVersionEntry (cat tname vname : String) (meta : YVal) :
    Except PyErr VEntry := do
  let version ← pyGet meta "version" .null
  let fromS ← pyGet meta "from_schema" .null
  let toS ← pyGet meta "to_schema" .null
  let status ← pyGet meta "status" (.str "draft")
  let path := "transforms/" ++ cat ++ "/" ++ tname ++ "/" ++ vname ++ "/"
  let checksum ← checksumField meta
  let av ← provFields meta
  let compat ← compatField meta
  pure ⟨version, fromS, toS, status, path, checksum, av.1, av.2, compat⟩

/-- `IndexGenerator._read_transform_meta` (lines 87–126): `None` when
the metadata file is absent, fails to parse, or the entry-building body
raises (the `except Exception` branch prints a warning and returns
`None`). -/
def readTransformMeta (cat tname : String) (vd : VersionDirM) :
    Option VEntry :=
  if !vd.hasMeta then none
  else
    match vd.metaParse with
    | .error _ => none
    | .ok meta =>
      match buildVersionEntry cat tname vd.vname meta with
      | .error _ => none
      | .ok e => some e

/-- The grouping dictionary `all_transforms` of `_collect_transforms`:
an insertion-ordered association list with unique keys, as a Python
`dict` is. -/
abbrev Groups := List (String × List VEntry)

/-- `all_transforms[transform_id] = []` guarded by
`if transform_id not in all_transforms` (lines 63–64). -/
def ensureKey (acc : Groups) (id : String) : Groups :=
  if acc.any (fun p => p.1 == id) then acc else acc ++ [(id, [])]

/-- `all_transforms[transform_id].append(version_meta)` (line 72). -/
def groupAppend (acc : Groups) (id : String) (e : VEntry) : Groups :=
  acc.map (fun p => if p.1 == id then (p.1, p.2 ++ [e]) else p)

/-- The `for version_dir ...` loop of `_collect_transforms`
(lines 66–72). -/
def collectVds (cat tname : String) : List VersionDirM → Groups → Groups
  | [], acc => acc
  | vd :: vds, acc =>
    collectVds cat tname vds
      (match readTransformMeta cat tname vd with
       | some e => groupAppend acc (cat ++ "/" ++ tname) e
       | none => acc)

/-- The `for transform_dir ...` loop of `_collect_transforms`
(lines 57–72): the group is created when the transform directory is
seen, before any version directory is read. -/
def collectTds (cat : String) : List TransformDirM → Groups → Groups
  | [], acc => acc
  | td :: tds, acc =>
    collectTds cat tds
      (collectVds cat td.tname td.versions (ensureKey acc (cat ++ "/" ++ td.tname)))

/-- The `for category_dir ...` loop of `_collect_transforms`
(lines 53–72). -/
def collectCats : List CategoryM → Groups → Groups
  | [], acc => acc
  | c :: cs, acc => collectCats cs (collectTds c.cname c.tdirs acc)

/-- The `category/name` ids in traversal order (with repetition), as the
grouping dictionary encounters them. -/
def encIds : List CategoryM → List String
  | [] => []
  | c :: cs => c.tdirs.map (fun td => c.cname ++ "/" ++ td.tname) ++ encIds cs

/-- All version records collected for one id by the inner loops, over
one category's transform directories, in traversal order. -/
def recsForTds (id cname : String) : List TransformDirM → List VEntry
  | [] => []
  | td :: tds =>
    (if cname ++ "/" ++ td.tname == id then
      td.versions.filterMap (readTransformMeta cname td.tname)
     else []) ++ recsForTds id cname tds

/-- All version records collected for one id over the whole traversal,
in traversal order. -/
def recsFor (id : String) : List CategoryM → List VEntry
  | [] => []
  | c :: cs => recsForTds id c.cname c.tdirs ++ recsFor id cs

/-- The record list held by the grouping dictionary under `id`
(`[]` both for an id holding an empty list and for an absent id). -/
def lookupD (acc : Groups) (id : String) : List VEntry :=
  ((acc.find? (fun p => p.1 == id)).map (·.2)).getD []

/-- The grouping dictionary's key list. -/
def gkeys (acc : Groups) : List String := acc.map (·.1)

/-- One grouped entry of the generated index's `transforms` array. -/
structure TransformEntry where
  id : String
  versions : List VEntry
deriving Repr

/-- The `versions.sort(key=lambda v: v["version"], reverse=True)` key
(line 78).  The Python comparison is between the raw version values;
for strings it is code-point lexicographic, which `String.le` matches.
Comparing a non-string with a string raises `TypeError` in Python; the
model totalises with a default key, and every theorem about version
ordering below carries a versions-are-strings hypothesis so that the
totalisation is never load-bearing. -/
def versionKey (e : VEntry) : String :=
  match e.version with
  | .str s => s
  | _ => ""

/-- The version comparator: stable descending sort by raw string
comparison (`reverse=True` reverses comparisons but keeps ties in
original order, as `mergeSort` with this `le` does). -/
def versionLe (a b : VEntry) : Bool := decide (versionKey b ≤ versionKey a)

/-- `IndexGenerator._collect_transforms` (lines 45–85): group by
`category/name` in traversal order, then emit one entry per id, ids
ascending (`sorted(all_transforms.items())` — ids are unique, so the
tuple comparison never reaches the second component), versions sorted
descending by raw version-string comparison. -/
def collectTransforms (snap : Snapshot) : List TransformEntry :=
  if !snap.hasTransformsDir then []
  else
    ((collectCats snap.categories []).mergeSort
        (fun p q => decide (p.1 ≤ q.1))).map
      (fun p => ⟨p.1, p.2.mergeSort versionLe⟩)

/-- One entry of the generated index's `schemas` array. -/
structure SchemaEntry where
  uri : String
  path : String
deriving DecidableEq, Repr

/-- The Iglu URI synthesised at line 152. -/
def igluUri (vendor sname stem : String) : String :=
  "iglu:" ++ vendor ++ "/" ++ sname ++ "/jsonschema/" ++ stem

/-- The registry-relative schema file path (line 155). -/
def schemaPath (vendor sname stem : String) : String :=
  "schemas/" ++ vendor ++ "/" ++ sname ++ "/jsonschema/" ++ stem ++ ".json"

/-- The `for schema_file in jsonschema_dir.glob("*.json")` loop
(lines 147–160). -/
def collectStems (vendor sname : String) : List String →
    List SchemaEntry → List SchemaEntry
  | [], acc => acc
  | stem :: stems, acc =>
    collectStems vendor sname stems
      (acc ++ [⟨igluUri vendor sname stem, schemaPath vendor sname stem⟩])

/-- The `for schema_dir ...` loop of `_collect_schemas` (lines
139–160): a schema-set directory without `jsonschema/` is skipped. -/
def collectSds (vendor : String) : List SchemaDirM →
    List SchemaEntry → List SchemaEntry
  | [], acc => acc
  | sd :: sds, acc =>
    collectSds vendor sds
      (if sd.hasJsonschemaDir then collectStems vendor sd.sname sd.stems acc
       else acc)

/-- The `for vendor_dir ...` loop of `_collect_schemas` (lines 135–160). -/
def collectVendors : List VendorM → List SchemaEntry → List SchemaEntry
  | [], acc => acc
  | v :: vs, acc => collectVendors vs (collectSds v.vname v.sdirs acc)

/-- `IndexGenerator._collect_schemas` (lines 128–162): collect every
schema file, then sort ascending by URI. -/
def collectSchemas (snap : Snapshot) : List SchemaEntry :=
  if !snap.hasSchemasDir then []
  else
    (collectVendors snap.vendors []).mergeSort
      (fun a b => decide (a.uri ≤ b.uri))

/-- The generated index document (`IndexGenerator.generate`, lines
26–43): fixed format version, the generation timestamp captured once at
build start, and the two sorted arrays. -/
structure RegistryIndex where
  formatVersion : String
  generated_at : String
  transforms : List TransformEntry
  schemas : List SchemaEntry

/-- `IndexGenerator.generate`: pure function of the snapshot and the
`datetime.now(timezone.utc).isoformat()` timestamp. -/
def generate (snap : Snapshot) (now : String) : RegistryIndex :=
  ⟨"1.0.0", now, collectTransforms snap, collectSchemas snap⟩

/-- The entries one `jsonschema/` directory contributes, in glob order
(the closed form of `collectStems` run on an empty accumulator). -/
def stemEntries (vendor sname : String) (stems : List String) :
    List SchemaEntry :=
  stems.map (fun st => ⟨igluUri vendor sname st, schemaPath vendor sname st⟩)

/-- The entries one schema-set directory contributes. -/
def sdEntries (vendor : String) (sd : SchemaDirM) : List SchemaEntry :=
  if sd.hasJsonschemaDir then stemEntries vendor sd.sname sd.stems else []

/-- The entries one vendor directory contributes. -/
def venEntries (v : VendorM) : List SchemaEntry :=
  (v.sdirs.map (sdEntries v.vname)).flatten

/-! ### Enumeration-order reordering

`Path.iterdir` and `Path.glob` return directory entries in an order the
filesystem chooses; the same registry can therefore be presented to the
generator under any permutation of each directory listing.  `RPerm r`
relates two listings that are a permutation followed by a pointwise
reordering of the entries themselves. -/

/-- `l2` is a permutation of `l1` with each element related by `r`. -/
def RPerm {α : Type} (r : α → α → Prop) (l1 l2 : List α) : Prop :=
  ∃ l, l1.Perm l ∧ List.Forall₂ r l l2

/-- The same transform directory with its version subdirectories
enumerated in another order. -/
def TdReorder (t1 t2 : TransformDirM) : Prop :=
  t1.tname = t2.tname ∧ t1.versions.Perm t2.versions

/-- The same category directory under another enumeration order. -/
def CatReorder (c1 c2 : CategoryM) : Prop :=
  c1.cname = c2.cname ∧ RPerm TdReorder c1.tdirs c2.tdirs

/-- The same schema-set directory with its `*.json` files globbed in
another order. -/
def SdReorder (s1 s2 : SchemaDirM) : Prop :=
  s1.sname = s2.sname ∧ s1.hasJsonschemaDir = s2.hasJsonschemaDir ∧
    s1.stems.Perm s2.stems

/-- The same vendor directory under another enumeration order. -/
def VenReorder (v1 v2 : VendorM) : Prop :=
  v1.vname = v2.vname ∧ RPerm SdReorder v1.sdirs v2.sdirs

/-- Two snapshots of the same registry differing only in filesystem
enumeration order at every directory level. -/
def SnapReorder (s1 s2 : Snapshot) : Prop :=
  s1.hasTransformsDir = s2.hasTransformsDir ∧
  s1.hasSchemasDir = s2.hasSchemasDir ∧
  RPerm CatReorder s1.categories s2.categories ∧
  RPerm VenReorder s1.vendors s2.vendors

/-! ### Specification predicates -/

/-- A validator step only appends to the accumulators, and its boolean
result is `true` exactly when it appended no error. -/
def Appends (F : VState → Except PyErr Bool × VState) : Prop :=
  ∀ st : VState, ∃ Δe Δw : List String,
    (F st).2 = ⟨st.errors ++ Δe, st.warnings ++ Δw⟩ ∧
    ((F st).1 = .ok true → Δe = []) ∧
    ((F st).1 = .ok false → Δe ≠ [])

/-- Same accounting for the steps that cannot raise. -/
def AppendsT (F : VState → Bool × VState) : Prop :=
  ∀ st : VState, ∃ Δe Δw : List String,
    (F st).2 = ⟨st.errors ++ Δe, st.warnings ++ Δw⟩ ∧
    ((F st).1 = true ↔ Δe = [])

/-! ### Concrete fixtures used by witnesses and counterexamples -/

/-- A trivial stand-in for the external JSONata engine. -/
def ev0 : Evaluator := fun _ _ => .ok .null

/-- A trivial stand-in for the external schema meta-validator. -/
def chk0 : SchemaChecker := fun _ => none

/-- An empty, fully well-formed registry. -/
def reg0 : Registry := ⟨"/repo", true, true, true, true, [], []⟩

/-- A registry whose `transforms/` top-level directory is missing. -/
def regNoTransforms : Registry := ⟨"/repo", false, true, true, true, [], []⟩

/-- A version directory whose `spec.meta.yaml` is an empty file:
`yaml.safe_load` returns `None`. -/
def unitNullMeta : VUnit :=
  ⟨"payments", "normalize_amount", "1.0.0", true, [], "", true, .ok .null, true, []⟩

/-- A registry containing only `unitNullMeta`. -/
def regNullMeta : Registry := ⟨"/repo", true, true, true, true, [unitNullMeta], []⟩

/-- Metadata that is complete and consistent except that it has no
`checksum` block. -/
def metaNoChecksum : YVal :=
  .map [("id", .str "payments/normalize_amount"), ("version", .str "1.0.0"),
    ("engine", .str "jsonata"), ("from_schema", .str "iglu:acme/a/jsonschema/1-0-0"),
    ("to_schema", .str "iglu:acme/b/jsonschema/1-0-0"), ("tests", .list []),
    ("provenance", .map [("author", .str "a"), ("created_utc", .str "t")]),
    ("status", .str "draft")]

/-- The version directory carrying `metaNoChecksum`, with all required
files present. -/
def unitNoChecksum : VUnit :=
  ⟨"payments", "normalize_amount", "1.0.0", true, [], "", true, .ok metaNoChecksum, true, []⟩

/-- A metadata mapping declaring the given digest in its checksum block. -/
def metaDecl (d : String) : YVal :=
  .map [("checksum", .map [("jsonata_sha256", .str d)])]

/-- The bytes of `"abc"`. -/
def bytesABC : List Byte := [97, 98, 99]

/-- A version directory that fails fast (missing `spec.jsonata`), used
twice to exercise the duplicate branch. -/
def uDup : VUnit :=
  ⟨"payments", "normalize_amount", "1.0.0", false, [], "", false, .ok .null, false, []⟩

/-- A metadata mapping whose provenance block is present but holds
neither an author nor a creation timestamp. -/
def kvsEmptyProv : List (String × YVal) :=
  [("version", .str "1.0.0"), ("provenance", .map [])]

/-- A version directory carrying `kvsEmptyProv`. -/
def vdEmptyProv : VersionDirM := ⟨"1.0.0", true, .ok (.map kvsEmptyProv)⟩

/-- A transform directory whose only version directory lacks a metadata
file. -/
def tdNoMeta : TransformDirM := ⟨"normalize_amount", [⟨"1.0.0", false, .ok .null⟩]⟩

/-- The category holding `tdNoMeta`. -/
def catNoMeta : CategoryM := ⟨"payments", [tdNoMeta]⟩

/-- A snapshot holding only `catNoMeta`. -/
def snapNoMeta : Snapshot := ⟨true, true, [catNoMeta], []⟩

/-- The claim's concrete scenario: `payments/normalize_amount` with
version directories `1.0.0` and `1.1.0`, each declaring its version. -/
def snapScenario : Snapshot :=
  ⟨true, true,
    [⟨"payments", [⟨"normalize_amount",
      [⟨"1.0.0", true, .ok (.map [("version", .str "1.0.0")])⟩,
       ⟨"1.1.0", true, .ok (.map [("version", .str "1.1.0")])⟩]⟩]⟩], []⟩

/-- The index entry for version `1.0.0` in the scenario. -/
def entry100 : VEntry :=
  ⟨.str "1.0.0", .null, .null, .str "draft",
    "transforms/payments/normalize_amount/1.0.0/", none, none, none, none⟩

/-- The index entry for version `1.1.0` in the scenario. -/
def entry110 : VEntry :=
  ⟨.str "1.1.0", .null, .null, .str "draft",
    "transforms/payments/normalize_amount/1.1.0/", none, none, none, none⟩

/-- The index entry `vdEmptyProv` produces: `author` and `created_utc`
are present with their defaults. -/
def entryEmptyProv : VEntry :=
  ⟨.str "1.0.0", .null, .null, .str "draft",
    "transforms/payments/normalize_amount/1.0.0/",
    none, some (.str "Unknown"), some .null, none⟩

/-- A version directory declaring version `"1.0.0"`. -/
def vdTieA : VersionDirM := ⟨"1.0.0", true, .ok (.map [("version", .str "1.0.0")])⟩

/-- A second, distinct version directory declaring the same version
string `"1.0.0"`. -/
def vdTieB : VersionDirM :=
  ⟨"1.0.0-copy", true, .ok (.map [("version", .str "1.0.0")])⟩

/-- A registry whose one transform holds two version directories tied on
the declared version string, enumerated `vdTieA` first. -/
def snapTie1 : Snapshot :=
  ⟨true, true, [⟨"payments", [⟨"normalize_amount", [vdTieA, vdTieB]⟩]⟩], []⟩

/-- The same registry enumerated with `vdTieB` first. -/
def snapTie2 : Snapshot :=
  ⟨true, true, [⟨"payments", [⟨"normalize_amount", [vdTieB, vdTieA]⟩]⟩], []⟩

/-- The index entry `vdTieA` produces. -/
def entryTieA : VEntry :=
  ⟨.str "1.0.0", .null, .null, .str "draft",
    "transforms/payments/normalize_amount/1.0.0/", none, none, none, none⟩

/-- The index entry `vdTieB` produces. -/
def entryTieB : VEntry :=
  ⟨.str "1.0.0", .null, .null, .str "draft",
    "transforms/payments/normalize_amount/1.0.0-copy/", none, none, none, none⟩

end Canonizer

namespace Canonizer

/-! ## Theorems -/

theorem appends_seqAnd {f : VState → Except PyErr Bool × VState}
    {g : VState → Except PyErr Bool × VState} (hf : Appends f)
    (hg : Appends g) : Appends (fun st => seqAnd (f st) g) := by
  intro st
  obtain ⟨Δe, Δw, h2, ht, hn⟩ := hf st
  rcases hfs : f st with ⟨r, st1⟩
  rw [hfs] at h2 ht hn
  simp only at h2 ht hn
  cases r with
  | error e =>
    refine ⟨Δe, Δw, ?_⟩
    simp [seqAnd, hfs, h2]
  | ok b =>
    subst h2
    obtain ⟨Δe2, Δw2, g2, gt, gn⟩ :=
      hg ⟨st.errors ++ Δe, st.warnings ++ Δw⟩
    rcases hgs : g ⟨st.errors ++ Δe, st.warnings ++ Δw⟩ with ⟨r2, st2⟩
    rw [hgs] at g2 gt gn
    simp only at g2 gt gn
    cases r2 with
    | error e =>
      refine ⟨Δe ++ Δe2, Δw ++ Δw2, ?_⟩
      simp [seqAnd, hfs, hgs, g2]
    | ok b2 =>
      refine ⟨Δe ++ Δe2, Δw ++ Δw2, ?_, ?_, ?_⟩
      · simp [seqAnd, hfs, hgs, g2]
      · intro h
        have hbb : (b && b2) = true := by simpa [seqAnd, hfs, hgs] using h
        obtain ⟨hb, hb2⟩ := Bool.and_eq_true_iff.mp hbb
        simp [ht (by rw [hb]), gt (by rw [hb2])]
      · intro h
        have hbb : (b && b2) = false := by simpa [seqAnd, hfs, hgs] using h
        cases b with
        | false => simp [hn rfl]
        | true =>
          simp only [Bool.true_and] at hbb
          simp [List.append_eq_nil, gn (by rw [hbb])]

theorem appends_requiredFieldsLoop (tag : String) (meta : YVal) :
    ∀ fs : List String, Appends (requiredFieldsLoop tag meta fs) := by
  intro fs
  induction fs with
  | nil => exact fun st => ⟨[], [], by simp [requiredFieldsLoop], by simp, by simp [requiredFieldsLoop]⟩
  | cons f fs ih =>
    intro st
    cases h : pyIn f meta with
    | error e =>
      exact ⟨[], [], by simp [requiredFieldsLoop, h], by simp [requiredFieldsLoop, h], by simp [requiredFieldsLoop, h]⟩
    | ok b =>
      cases b with
      | true =>
        obtain ⟨Δe, Δw, h2, ht, hn⟩ := ih st
        exact ⟨Δe, Δw, by simpa [requiredFieldsLoop, h] using h2,
          by simpa [requiredFieldsLoop, h] using ht,
          by simpa [requiredFieldsLoop, h] using hn⟩
      | false =>
        have comp : Appends (fun st => seqAnd
            ((.ok false : Except PyErr Bool),
              st.addErr (tag ++ ": Missing required field: " ++ f))
            (requiredFieldsLoop tag meta fs)) := by
          refine appends_seqAnd (fun st => ?_) ih
          exact ⟨[tag ++ ": Missing required field: " ++ f], [],
            by simp [VState.addErr], by simp, by simp⟩
        obtain ⟨Δe, Δw, h2, ht, hn⟩ := comp st
        exact ⟨Δe, Δw, by simpa [requiredFieldsLoop, h] using h2,
          by simpa [requiredFieldsLoop, h] using ht,
          by simpa [requiredFieldsLoop, h] using hn⟩

theorem appends_idCheck (tag tid : String) (meta : YVal) :
    Appends (idCheck tag tid meta) := by
  intro st
  cases h : pyGet meta "id" .null with
  | error e => exact ⟨[], [], by simp [idCheck, h], by simp [idCheck, h], by simp [idCheck, h]⟩
  | ok v =>
    by_cases he : pyEqb v (.str tid)
    · exact ⟨[], [], by simp [idCheck, h, he], by simp, by simp [idCheck, h, he]⟩
    · refine ⟨[tag ++ ": ID mismatch (expected " ++ tid ++ ", got " ++ pyStrOf v ++ ")"],
        [], by simp [idCheck, h, he, VState.addErr], by simp [idCheck, h, he], by simp⟩

theorem appends_versionCheck (tag ver : String) (meta : YVal) :
    Appends (versionCheck tag ver meta) := by
  intro st
  cases h : pyGet meta "version" .null with
  | error e => exact ⟨[], [], by simp [versionCheck, h], by simp [versionCheck, h], by simp [versionCheck, h]⟩
  | ok v =>
    by_cases he : pyEqb v (.str ver)
    · exact ⟨[], [], by simp [versionCheck, h, he], by simp, by simp [versionCheck, h, he]⟩
    · refine ⟨[tag ++ ": Version mismatch (expected " ++ ver ++ ", got " ++ pyStrOf v ++ ")"],
        [], by simp [versionCheck, h, he, VState.addErr], by simp [versionCheck, h, he], by simp⟩

theorem appends_engineCheck (tag : String) (meta : YVal) :
    Appends (engineCheck tag meta) := by
  intro st
  cases h : pyGet meta "engine" .null with
  | error e => exact ⟨[], [], by simp [engineCheck, h], by simp [engineCheck, h], by simp [engineCheck, h]⟩
  | ok v =>
    by_cases he : pyEqb v (.str "jsonata")
    · exact ⟨[], [], by simp [engineCheck, h, he], by simp, by simp [engineCheck, h, he]⟩
    · refine ⟨[tag ++ ": Invalid engine (must be \x27jsonata\x27)"],
        [], by simp [engineCheck, h, he, VState.addErr], by simp [engineCheck, h, he], by simp⟩

theorem appends_checksumStep (tag : String) (meta : YVal) (bytes : List Byte) :
    Appends (checksumStep tag meta bytes) := by
  intro st
  cases h1 : pyIn "checksum" meta with
  | error e => exact ⟨[], [], by simp [checksumStep, h1], by simp [checksumStep, h1], by simp [checksumStep, h1]⟩
  | ok b1 =>
    cases b1 with
    | false => exact ⟨[], [], by simp [checksumStep, h1], by simp, by simp [checksumStep, h1]⟩
    | true =>
      cases h2 : pyIndex meta "checksum" with
      | error e => exact ⟨[], [], by simp [checksumStep, h1, h2], by simp [checksumStep, h1, h2], by simp [checksumStep, h1, h2]⟩
      | ok cs =>
        cases h3 : pyIn "jsonata_sha256" cs with
        | error e => exact ⟨[], [], by simp [checksumStep, h1, h2, h3], by simp [checksumStep, h1, h2, h3], by simp [checksumStep, h1, h2, h3]⟩
        | ok b2 =>
          cases b2 with
          | false => exact ⟨[], [], by simp [checksumStep, h1, h2, h3], by simp, by simp [checksumStep, h1, h2, h3]⟩
          | true =>
            cases h4 : pyIndex cs "jsonata_sha256" with
            | error e => exact ⟨[], [], by simp [checksumStep, h1, h2, h3, h4], by simp [checksumStep, h1, h2, h3, h4], by simp [checksumStep, h1, h2, h3, h4]⟩
            | ok declared =>
              by_cases he : pyEqb declared (.str (sha256hex bytes))
              · exact ⟨[], [], by simp [checksumStep, h1, h2, h3, h4, he], by simp, by simp [checksumStep, h1, h2, h3, h4, he]⟩
              · refine ⟨[tag ++ ": Checksum mismatch (expected " ++ pyStrOf declared ++
                  ", got " ++ sha256hex bytes ++ ")"], [],
                  by simp [checksumStep, h1, h2, h3, h4, he, VState.addErr],
                  by simp [checksumStep, h1, h2, h3, h4, he], by simp⟩

theorem appendsT_runGoldenTest (ev : Evaluator) (u : VUnit)
    (dirPath inpS expS : String) :
    AppendsT (runGoldenTest ev u dirPath inpS expS) := by
  intro st
  cases h1 : (u.files.find? (fun p => p.1 == inpS)).map (·.2) with
  | none =>
    exact ⟨[u.tag ++ ": Golden test error: [Errno 2] No such file or directory"], [],
      by simp [runGoldenTest, h1, VState.addErr], by simp [runGoldenTest, h1]⟩
  | some r1 =>
    cases r1 with
    | error e =>
      exact ⟨[u.tag ++ ": Golden test error: " ++ e], [],
        by simp [runGoldenTest, h1, VState.addErr], by simp [runGoldenTest, h1]⟩
    | ok inputData =>
      cases h2 : (u.files.find? (fun p => p.1 == expS)).map (·.2) with
      | none =>
        exact ⟨[u.tag ++ ": Golden test error: [Errno 2] No such file or directory"], [],
          by simp [runGoldenTest, h1, h2, VState.addErr], by simp [runGoldenTest, h1, h2]⟩
      | some r2 =>
        cases r2 with
        | error e =>
          exact ⟨[u.tag ++ ": Golden test error: " ++ e], [],
            by simp [runGoldenTest, h1, h2, VState.addErr], by simp [runGoldenTest, h1, h2]⟩
        | ok expected =>
          cases h3 : ev u.jsonataText inputData with
          | error e =>
            exact ⟨[u.tag ++ ": Golden test error: " ++ e], [],
              by simp [runGoldenTest, h1, h2, h3, VState.addErr],
              by simp [runGoldenTest, h1, h2, h3]⟩
          | ok actual =>
            by_cases he : pyEqb actual expected
            · exact ⟨[], [], by simp [runGoldenTest, h1, h2, h3, he], by simp [runGoldenTest, h1, h2, h3, he]⟩
            · refine ⟨[u.tag ++ ": Golden test failed",
                "  Input: " ++ dirPath ++ "/" ++ inpS,
                "  Expected: " ++ dumpsPreview expected ++ "...",
                "  Actual: " ++ dumpsPreview actual ++ "..."], [],
                by simp [runGoldenTest, h1, h2, h3, he, VState.addErr],
                by simp [runGoldenTest, h1, h2, h3, he]⟩

theorem appends_goldenOne (ev : Evaluator) (u : VUnit) (dirPath : String)
    (spec : YVal) : Appends (goldenOne ev u dirPath spec) := by
  intro st
  cases h1 : pyIndex spec "input" with
  | error e => exact ⟨[], [], by simp [goldenOne, h1], by simp [goldenOne, h1], by simp [goldenOne, h1]⟩
  | ok inp =>
    cases h2 : pyIndex spec "expect" with
    | error e => exact ⟨[], [], by simp [goldenOne, h1, h2], by simp [goldenOne, h1, h2], by simp [goldenOne, h1, h2]⟩
    | ok exv =>
      cases inp with
      | str inpS =>
        cases exv with
        | str expS =>
          by_cases hf1 : (u.files.find? (fun p => p.1 == inpS)).isNone
          · exact ⟨[u.tag ++ ": Test input not found: " ++ inpS], [],
              by simp [goldenOne, h1, h2, hf1, VState.addErr],
              by simp [goldenOne, h1, h2, hf1], by simp⟩
          · by_cases hf2 : (u.files.find? (fun p => p.1 == expS)).isNone
            · exact ⟨[u.tag ++ ": Test expected output not found: " ++ expS], [],
                by simp [goldenOne, h1, h2, hf1, hf2, VState.addErr],
                by simp [goldenOne, h1, h2, hf1, hf2], by simp⟩
            · obtain ⟨Δe, Δw, hg2, hgiff⟩ := appendsT_runGoldenTest ev u dirPath inpS expS st
              rcases hgr : runGoldenTest ev u dirPath inpS expS st with ⟨b, st'⟩
              rw [hgr] at hg2 hgiff
              simp only at hg2 hgiff
              refine ⟨Δe, Δw, ?_, ?_, ?_⟩
              · simp [goldenOne, h1, h2, hf1, hf2, hgr, hg2]
              · intro h
                have hb : b = true := by simpa [goldenOne, h1, h2, hf1, hf2, hgr] using h
                exact hgiff.mp hb
              · intro h
                have hb : b = false := by simpa [goldenOne, h1, h2, hf1, hf2, hgr] using h
                intro hnil
                rw [hgiff.mpr hnil] at hb
                exact Bool.noConfusion hb
        | null => exact ⟨[], [], by simp [goldenOne, h1, h2], by simp [goldenOne, h1, h2], by simp [goldenOne, h1, h2]⟩
        | bool b => exact ⟨[], [], by simp [goldenOne, h1, h2], by simp [goldenOne, h1, h2], by simp [goldenOne, h1, h2]⟩
        | int n => exact ⟨[], [], by simp [goldenOne, h1, h2], by simp [goldenOne, h1, h2], by simp [goldenOne, h1, h2]⟩
        | list xs => exact ⟨[], [], by simp [goldenOne, h1, h2], by simp [goldenOne, h1, h2], by simp [goldenOne, h1, h2]⟩
        | map kvs => exact ⟨[], [], by simp [goldenOne, h1, h2], by simp [goldenOne, h1, h2], by simp [goldenOne, h1, h2]⟩
      | null => exact ⟨[], [], by simp [goldenOne, h1, h2], by simp [goldenOne, h1, h2], by simp [goldenOne, h1, h2]⟩
      | bool b => exact ⟨[], [], by simp [goldenOne, h1, h2], by simp [goldenOne, h1, h2], by simp [goldenOne, h1, h2]⟩
      | int n => exact ⟨[], [], by simp [goldenOne, h1, h2], by simp [goldenOne, h1, h2], by simp [goldenOne, h1, h2]⟩
      | list xs => exact ⟨[], [], by simp [goldenOne, h1, h2], by simp [goldenOne, h1, h2], by simp [goldenOne, h1, h2]⟩
      | map kvs => exact ⟨[], [], by simp [goldenOne, h1, h2], by simp [goldenOne, h1, h2], by simp [goldenOne, h1, h2]⟩

theorem appends_goldenLoop (ev : Evaluator) (u : VUnit) (dirPath : String) :
    ∀ specs : List YVal, Appends (goldenLoop ev u dirPath specs) := by
  intro specs
  induction specs with
  | nil => exact fun st => ⟨[], [], by simp [goldenLoop], by simp, by simp [goldenLoop]⟩
  | cons spec rest ih =>
    have := appends_seqAnd (appends_goldenOne ev u dirPath spec) ih
    intro st
    obtain ⟨Δe, Δw, h2, ht, hn⟩ := this st
    exact ⟨Δe, Δw, by simpa [goldenLoop] using h2, by simpa [goldenLoop] using ht,
      by simpa [goldenLoop] using hn⟩

theorem appends_goldenStep (ja : Bool) (ev : Evaluator) (u : VUnit)
    (dirPath : String) (meta : YVal) :
    Appends (goldenStep ja ev u dirPath meta) := by
  intro st
  cases ja with
  | false => exact ⟨[], [], by simp [goldenStep], by simp, by simp [goldenStep]⟩
  | true =>
    cases h1 : pyIn "tests" meta with
    | error e => exact ⟨[], [], by simp [goldenStep, h1], by simp [goldenStep, h1], by simp [goldenStep, h1]⟩
    | ok b1 =>
      cases b1 with
      | false => exact ⟨[], [], by simp [goldenStep, h1], by simp, by simp [goldenStep, h1]⟩
      | true =>
        cases h2 : pyIndex meta "tests" with
        | error e => exact ⟨[], [], by simp [goldenStep, h1, h2], by simp [goldenStep, h1, h2], by simp [goldenStep, h1, h2]⟩
        | ok tv =>
          cases h3 : pyIterElems tv with
          | error e => exact ⟨[], [], by simp [goldenStep, h1, h2, h3], by simp [goldenStep, h1, h2, h3], by simp [goldenStep, h1, h2, h3]⟩
          | ok specs =>
            obtain ⟨Δe, Δw, hg2, ht, hn⟩ := appends_goldenLoop ev u dirPath specs st
            exact ⟨Δe, Δw, by simpa [goldenStep, h1, h2, h3] using hg2,
              by simpa [goldenStep, h1, h2, h3] using ht,
              by simpa [goldenStep, h1, h2, h3] using hn⟩

theorem appends_validateTransform (root : String) (ja : Bool)
    (ev : Evaluator) (u : VUnit) :
    Appends (validateTransform root ja ev u) := by
  intro st
  by_cases hj : u.hasJsonata
  case neg =>
    exact ⟨[u.tag ++ ": Missing spec.jsonata"], [],
      by simp [validateTransform, hj, VState.addErr],
      by simp [validateTransform, hj], by simp⟩
  case pos =>
  by_cases hm : u.hasMeta
  case neg =>
    exact ⟨[u.tag ++ ": Missing spec.meta.yaml"], [],
      by simp [validateTransform, hj, hm, VState.addErr],
      by simp [validateTransform, hj, hm], by simp⟩
  case pos =>
  by_cases htd : u.hasTestsDir
  case neg =>
    exact ⟨[u.tag ++ ": Missing tests/ directory"], [],
      by simp [validateTransform, hj, hm, htd, VState.addErr],
      by simp [validateTransform, hj, hm, htd], by simp⟩
  case pos =>
  cases hp : u.metaParse with
  | error e =>
    exact ⟨[u.tag ++ ": Invalid YAML: " ++ e], [],
      by simp [validateTransform, hj, hm, htd, hp, VState.addErr],
      by simp [validateTransform, hj, hm, htd, hp], by simp⟩
  | ok meta =>
    have comp :
        Appends (fun st => seqAnd (requiredFieldsLoop u.tag meta requiredFields st)
          (fun st => seqAnd (idCheck u.tag u.tid meta st)
            (fun st => seqAnd (versionCheck u.tag u.version meta st)
              (fun st => seqAnd (engineCheck u.tag meta st)
                (fun st => seqAnd (checksumStep u.tag meta u.jsonataBytes st)
                  (goldenStep ja ev u (root ++ "/transforms/" ++ u.category ++
                    "/" ++ u.tname ++ "/" ++ u.version) meta)))))) :=
      appends_seqAnd (appends_requiredFieldsLoop u.tag meta requiredFields)
        (appends_seqAnd (appends_idCheck u.tag u.tid meta)
          (appends_seqAnd (appends_versionCheck u.tag u.version meta)
            (appends_seqAnd (appends_engineCheck u.tag meta)
              (appends_seqAnd (appends_checksumStep u.tag meta u.jsonataBytes)
                (appends_goldenStep ja ev u _ meta)))))
    obtain ⟨Δe, Δw, h2, ht, hn⟩ := comp st
    exact ⟨Δe, Δw, by simpa [validateTransform, hj, hm, htd, hp] using h2,
      by simpa [validateTransform, hj, hm, htd, hp] using ht,
      by simpa [validateTransform, hj, hm, htd, hp] using hn⟩

theorem processUnits_ok (root : String) (ja : Bool) (ev : Evaluator) :
    ∀ (us : List VUnit) (ts ts' : TransState),
      processUnits root ja ev us ts = .ok ts' →
      ∃ Δe Δw : List String,
        ts'.st = ⟨ts.st.errors ++ Δe, ts.st.warnings ++ Δw⟩ ∧
        ts'.success = (ts.success && Δe.isEmpty) := by
  intro us
  induction us with
  | nil =>
    intro ts ts' h
    simp [processUnits] at h
    exact ⟨[], [], by simp [← h], by simp [← h]⟩
  | cons u rest ih =>
    intro ts ts' h
    by_cases hdup : ts.seen.contains (u.tid, u.version)
    · simp only [processUnits, hdup, if_pos] at h
      obtain ⟨Δe, Δw, h2, hs⟩ := ih _ _ h
      refine ⟨("Duplicate transform: " ++ u.tid ++ "@" ++ u.version) :: Δe, Δw, ?_, ?_⟩
      · simpa [VState.addErr] using h2
      · simp [hs]
    · simp only [processUnits, hdup, if_neg, if_false] at h
      obtain ⟨Δv, Δvw, hv2, hvt, hvn⟩ :=
        appends_validateTransform root ja ev u ts.st
      rcases hvs : validateTransform root ja ev u ts.st with ⟨r, st1⟩
      rw [hvs] at h hv2 hvt hvn
      simp only at h hv2 hvt hvn
      cases r with
      | error e => exact absurd h (by simp)
      | ok ok =>
        cases ok with
        | true =>
          obtain ⟨Δe, Δw, h2, hs⟩ := ih _ _ h
          refine ⟨Δv ++ Δe, Δvw ++ Δw, ?_, ?_⟩
          · rw [h2]
            simp only [hv2]
            simp
          · have hnil : Δv = [] := hvt rfl
            subst hnil
            simpa using hs
        | false =>
          obtain ⟨Δe, Δw, h2, hs⟩ := ih _ _ h
          refine ⟨Δv ++ Δe, Δvw ++ Δw, ?_, ?_⟩
          · rw [h2]
            simp only [hv2]
            simp
          · rw [hs]
            have hne : Δv ≠ [] := hvn rfl
            simp [List.isEmpty_iff, hne]

theorem checkTransforms_ok (reg : Registry) (ja : Bool) (ev : Evaluator)
    (st : VState) (b : Bool) (st' : VState)
    (h : checkTransforms reg ja ev st = (.ok b, st')) :
    ∃ Δe Δw : List String,
      st' = ⟨st.errors ++ Δe, st.warnings ++ Δw⟩ ∧ (b = true ↔ Δe = []) := by
  by_cases hd : reg.hasTransformsDir
  · rw [checkTransforms, checkTransformsFull] at h
    rcases hps : processUnits reg.root ja ev reg.units (initTransState st) with e | ts
    · rw [hps] at h
      simp [hd] at h
    · rw [hps] at h
      simp only [hd, Bool.not_true, Bool.false_eq_true, if_false, Prod.mk.injEq,
        Except.ok.injEq] at h
      obtain ⟨hb, hst⟩ := h
      obtain ⟨Δe, Δw, h2, hs⟩ := processUnits_ok reg.root ja ev reg.units _ _ hps
      refine ⟨Δe, Δw, ?_, ?_⟩
      · rw [← hst]
        simpa [initTransState] using h2
      · rw [← hb, hs]
        simp [initTransState, List.isEmpty_iff]
  · rw [checkTransforms, checkTransformsFull] at h
    simp only [Bool.not_eq_true] at hd
    simp only [hd, Bool.not_false, if_true, Prod.mk.injEq, Except.ok.injEq] at h
    obtain ⟨hb, hst⟩ := h
    refine ⟨["Transforms directory not found: " ++ reg.root ++ "/transforms"], [], ?_, ?_⟩
    · rw [← hst]
      simp [initTransState, VState.addErr]
    · rw [← hb]
      simp

theorem appendsT_checkDirs : ∀ dirs : List (Bool × String),
    AppendsT (checkDirs dirs) := by
  intro dirs
  induction dirs with
  | nil => exact fun st => ⟨[], [], by simp [checkDirs], by simp [checkDirs]⟩
  | cons d rest ih =>
    intro st
    rcases d with ⟨ex, p⟩
    cases ex with
    | true =>
      obtain ⟨Δe, Δw, h2, hiff⟩ := ih st
      exact ⟨Δe, Δw, by simpa [checkDirs] using h2, by simpa [checkDirs] using hiff⟩
    | false =>
      exact ⟨["Missing required directory: " ++ p], [],
        by simp [checkDirs, VState.addErr], by simp [checkDirs]⟩

theorem appendsT_validateSchema (js : Bool) (chk : SchemaChecker)
    (root : String) (sf : SchemaFileRec) :
    AppendsT (validateSchema js chk root sf) := by
  intro st
  cases hp : sf.parse with
  | error e =>
    exact ⟨[root ++ "/schemas/" ++ sf.vendor ++ "/" ++ sf.sname ++ "/jsonschema/" ++
      sf.stem ++ ".json" ++ ": Error validating schema: " ++ e], [],
      by simp [validateSchema, hp, VState.addErr], by simp [validateSchema, hp]⟩
  | ok schema =>
    cases schema with
    | map kvs =>
      by_cases hw : kvs.any (fun p => p.1 == "$schema")
      · cases js with
        | false => exact ⟨[], [], by simp [validateSchema, hp, hw], by simp [validateSchema, hp, hw]⟩
        | true =>
          cases hc : chk (.map kvs) with
          | none => exact ⟨[], [], by simp [validateSchema, hp, hw, hc], by simp [validateSchema, hp, hw, hc]⟩
          | some e =>
            exact ⟨[root ++ "/schemas/" ++ sf.vendor ++ "/" ++ sf.sname ++ "/jsonschema/" ++
              sf.stem ++ ".json" ++ ": Invalid JSON Schema: " ++ e], [],
              by simp [validateSchema, hp, hw, hc, VState.addErr],
              by simp [validateSchema, hp, hw, hc]⟩
      · cases js with
        | false =>
          exact ⟨[], [root ++ "/schemas/" ++ sf.vendor ++ "/" ++ sf.sname ++ "/jsonschema/" ++
            sf.stem ++ ".json" ++ ": Missing $schema field (recommended)"],
            by simp [validateSchema, hp, hw, VState.addWarn], by simp [validateSchema, hp, hw]⟩
        | true =>
          cases hc : chk (.map kvs) with
          | none =>
            exact ⟨[], [root ++ "/schemas/" ++ sf.vendor ++ "/" ++ sf.sname ++ "/jsonschema/" ++
              sf.stem ++ ".json" ++ ": Missing $schema field (recommended)"],
              by simp [validateSchema, hp, hw, hc, VState.addWarn],
              by simp [validateSchema, hp, hw, hc]⟩
          | some e =>
            exact ⟨[root ++ "/schemas/" ++ sf.vendor ++ "/" ++ sf.sname ++ "/jsonschema/" ++
              sf.stem ++ ".json" ++ ": Invalid JSON Schema: " ++ e],
              [root ++ "/schemas/" ++ sf.vendor ++ "/" ++ sf.sname ++ "/jsonschema/" ++
                sf.stem ++ ".json" ++ ": Missing $schema field (recommended)"],
              by simp [validateSchema, hp, hw, hc, VState.addErr, VState.addWarn],
              by simp [validateSchema, hp, hw, hc]⟩
    | null => exact ⟨[root ++ "/schemas/" ++ sf.vendor ++ "/" ++ sf.sname ++ "/jsonschema/" ++ sf.stem ++ ".json" ++ ": Schema must be a JSON object"], [], by simp [validateSchema, hp, VState.addErr], by simp [validateSchema, hp]⟩
    | bool b => exact ⟨[root ++ "/schemas/" ++ sf.vendor ++ "/" ++ sf.sname ++ "/jsonschema/" ++ sf.stem ++ ".json" ++ ": Schema must be a JSON object"], [], by simp [validateSchema, hp, VState.addErr], by simp [validateSchema, hp]⟩
    | int n => exact ⟨[root ++ "/schemas/" ++ sf.vendor ++ "/" ++ sf.sname ++ "/jsonschema/" ++ sf.stem ++ ".json" ++ ": Schema must be a JSON object"], [], by simp [validateSchema, hp, VState.addErr], by simp [validateSchema, hp]⟩
    | str s => exact ⟨[root ++ "/schemas/" ++ sf.vendor ++ "/" ++ sf.sname ++ "/jsonschema/" ++ sf.stem ++ ".json" ++ ": Schema must be a JSON object"], [], by simp [validateSchema, hp, VState.addErr], by simp [validateSchema, hp]⟩
    | list xs => exact ⟨[root ++ "/schemas/" ++ sf.vendor ++ "/" ++ sf.sname ++ "/jsonschema/" ++ sf.stem ++ ".json" ++ ": Schema must be a JSON object"], [], by simp [validateSchema, hp, VState.addErr], by simp [validateSchema, hp]⟩

theorem schemasLoop_ok (js : Bool) (chk : SchemaChecker) (root : String) :
    ∀ (sfs : List SchemaFileRec) (succ : Bool) (cnt : Nat) (st : VState),
      ∃ Δe Δw : List String,
        (schemasLoop js chk root sfs (succ, cnt, st)).2.2 =
          ⟨st.errors ++ Δe, st.warnings ++ Δw⟩ ∧
        (schemasLoop js chk root sfs (succ, cnt, st)).1 = (succ && Δe.isEmpty) := by
  intro sfs
  induction sfs with
  | nil => exact fun succ cnt st => ⟨[], [], by simp [schemasLoop], by simp [schemasLoop]⟩
  | cons sf rest ih =>
    intro succ cnt st
    obtain ⟨Δv, Δvw, hv2, hviff⟩ := appendsT_validateSchema js chk root sf st
    rcases hvs : validateSchema js chk root sf st with ⟨ok, st1⟩
    rw [hvs] at hv2 hviff
    simp only at hv2 hviff
    subst hv2
    cases ok with
    | true =>
      obtain ⟨Δe, Δw, h2, hs⟩ := ih succ (cnt + 1) ⟨st.errors ++ Δv, st.warnings ++ Δvw⟩
      have hnil : Δv = [] := hviff.mp rfl
      subst hnil
      refine ⟨Δe, Δvw ++ Δw, ?_, ?_⟩
      · simpa [schemasLoop, hvs] using h2
      · simpa [schemasLoop, hvs] using hs
    | false =>
      obtain ⟨Δe, Δw, h2, hs⟩ := ih false cnt ⟨st.errors ++ Δv, st.warnings ++ Δvw⟩
      have hne : Δv ≠ [] := by
        intro hc
        exact Bool.noConfusion (hviff.mpr hc)
      refine ⟨Δv ++ Δe, Δvw ++ Δw, ?_, ?_⟩
      · rw [schemasLoop]
        simp only [hvs]
        simp only [Bool.false_eq_true, if_false]
        rw [h2]
        simp
      · rw [schemasLoop]
        simp only [hvs]
        simp only [Bool.false_eq_true, if_false]
        rw [hs]
        simp [List.isEmpty_iff, hne]

theorem checkSchemas_ok (reg : Registry) (js : Bool) (chk : SchemaChecker)
    (st : VState) :
    ∃ Δe Δw : List String,
      (checkSchemas reg js chk st).2 = ⟨st.errors ++ Δe, st.warnings ++ Δw⟩ ∧
      ((checkSchemas reg js chk st).1 = true ↔ Δe = []) := by
  by_cases hd : reg.hasSchemasDir
  · obtain ⟨Δe, Δw, h2, hs⟩ := schemasLoop_ok js chk reg.root reg.schemaFiles true 0 st
    rcases hls : schemasLoop js chk reg.root reg.schemaFiles (true, 0, st) with ⟨s, c, st'⟩
    rw [hls] at h2 hs
    simp only at h2 hs
    refine ⟨Δe, Δw, ?_, ?_⟩
    · simp [checkSchemas, hd, hls, h2]
    · simp [checkSchemas, hd, hls, hs, List.isEmpty_iff]
  · simp only [Bool.not_eq_true] at hd
    exact ⟨[], ["Schemas directory not found: " ++ reg.root ++ "/schemas"],
      by simp [checkSchemas, hd, VState.addWarn], by simp [checkSchemas, hd]⟩

/-- C1: for every registry (and any evaluator/meta-validator
availability), whenever `validate_all()` on a fresh validator returns
normally with verdict `b`, then `b` is `true` exactly when the
accumulated error list is empty at the end of the run — warnings never
enter the verdict — and `main` exits `0` exactly when the verdict is
`true`, `1` otherwise. -/
theorem c1_verdict_iff_no_errors (reg : Registry) (ja : Bool)
    (ev : Evaluator) (js : Bool) (chk : SchemaChecker) (b : Bool)
    (st' : VState)
    (h : validateAll reg ja ev js chk emptyVState = (.ok b, st')) :
    (b = true ↔ st'.errors = []) ∧
    (mainExitCode reg ja ev js chk = .ok 0 ↔ b = true) ∧
    (b = false → mainExitCode reg ja ev js chk = .ok 1) := by
  have hmain : mainExitCode reg ja ev js chk = .ok (if b then 0 else 1) := by
    rw [mainExitCode, h]
  rcases hcs : checkStructure reg emptyVState with ⟨s1, st1⟩
  obtain ⟨Δ1, Δw1, h12, hiff1⟩ := appendsT_checkDirs (requiredDirList reg) emptyVState
  rw [show checkDirs (requiredDirList reg) emptyVState =
    checkStructure reg emptyVState from rfl, hcs] at h12 hiff1
  simp only at h12 hiff1
  rw [validateAll, hcs] at h
  dsimp only at h
  rcases hct : checkTransforms reg ja ev st1 with ⟨r2, st2⟩
  rw [hct] at h
  cases r2 with
  | error e => simp at h
  | ok s2 =>
    obtain ⟨Δ2, Δw2, h22, hiff2⟩ := checkTransforms_ok reg ja ev st1 s2 st2 hct
    rcases hcss : checkSchemas reg js chk st2 with ⟨s3, st3⟩
    obtain ⟨Δ3, Δw3, h32, hiff3⟩ := checkSchemas_ok reg js chk st2
    rw [hcss] at h32 hiff3
    simp only at h h32 hiff3
    rw [hcss] at h
    simp only [Prod.mk.injEq, Except.ok.injEq] at h
    obtain ⟨hb, hst⟩ := h
    have herrs : st'.errors = Δ1 ++ Δ2 ++ Δ3 := by
      rw [← hst, h32, h22, h12]
      simp [emptyVState]
    constructor
    · constructor
      · intro hbt
        rw [← hb] at hbt
        obtain ⟨h12t, h3t⟩ := Bool.and_eq_true_iff.mp hbt
        obtain ⟨h1t, h2t⟩ := Bool.and_eq_true_iff.mp h12t
        rw [herrs, hiff1.mp h1t, hiff2.mp h2t, hiff3.mp h3t]
        rfl
      · intro he
        rw [herrs] at he
        simp only [List.append_eq_nil] at he
        obtain ⟨⟨he1, he2⟩, he3⟩ := he
        rw [← hb, hiff1.mpr he1, hiff2.mpr he2, hiff3.mpr he3]
        rfl
    · constructor
      · rw [hmain]
        cases b with
        | true => simp
        | false => simp
      · intro hbf
        rw [hmain, hbf]
        rfl

/-- C1 witness: the empty well-formed registry validates successfully
with an empty error list and exit code `0`. -/
theorem c1_witness :
    ((true = true) ↔ (VState.mk [] []).errors = []) ∧
    (mainExitCode reg0 true ev0 true chk0 = .ok 0 ↔ true = true) ∧
    (true = false → mainExitCode reg0 true ev0 true chk0 = .ok 1) :=
  c1_verdict_iff_no_errors reg0 true ev0 true chk0 true ⟨[], []⟩ rfl

/-- C2 counterexample: on a registry whose `transforms/` directory is
missing, the run does not abort after the failed structure check — the
transform-check stage still executes and records its own error, so the
final error list holds two entries, not one. -/
theorem c2_counterexample :
    validateAll regNoTransforms true ev0 true chk0 emptyVState =
      (.ok false,
        ⟨["Missing required directory: /repo/transforms",
          "Transforms directory not found: /repo/transforms"], []⟩) := rfl

/-- C2 amended: a failed structure check does not gate the later
stages.  On every registry with a missing `transforms/` directory the
run still returns a (failed) verdict rather than aborting, the
transform-check stage runs and records its own directory error next to
the structure error, and the schema-check stage runs as well (when the
schemas directory is also missing it records its warning).  Stage N+1
always executes even if stage N failed. -/
theorem c2_structure_failure_does_not_abort (reg : Registry) (ja : Bool)
    (ev : Evaluator) (js : Bool) (chk : SchemaChecker) (st : VState)
    (hd : reg.hasTransformsDir = false) :
    ∃ st' : VState,
      validateAll reg ja ev js chk st = (.ok false, st') ∧
      ("Missing required directory: " ++ (reg.root ++ "/transforms")) ∈ st'.errors ∧
      ("Transforms directory not found: " ++ reg.root ++ "/transforms") ∈ st'.errors ∧
      (reg.hasSchemasDir = false →
        ("Schemas directory not found: " ++ reg.root ++ "/schemas") ∈ st'.warnings) := by
  have hcs : checkStructure reg st =
      (false, st.addErr ("Missing required directory: " ++ (reg.root ++ "/transforms"))) := by
    simp [checkStructure, requiredDirList, checkDirs, hd]
  have hct : checkTransforms reg ja ev
      (st.addErr ("Missing required directory: " ++ (reg.root ++ "/transforms"))) =
      (.ok false,
        (st.addErr ("Missing required directory: " ++ (reg.root ++ "/transforms"))).addErr
          ("Transforms directory not found: " ++ reg.root ++ "/transforms")) := by
    simp [checkTransforms, checkTransformsFull, hd, initTransState]
  rcases hcss : checkSchemas reg js chk
      ((st.addErr ("Missing required directory: " ++ (reg.root ++ "/transforms"))).addErr
        ("Transforms directory not found: " ++ reg.root ++ "/transforms")) with ⟨s3, st3⟩
  obtain ⟨Δ3, Δw3, h32, _⟩ := checkSchemas_ok reg js chk
    ((st.addErr ("Missing required directory: " ++ (reg.root ++ "/transforms"))).addErr
      ("Transforms directory not found: " ++ reg.root ++ "/transforms"))
  rw [hcss] at h32
  simp only at h32
  refine ⟨st3, ?_, ?_, ?_, ?_⟩
  · rw [validateAll, hcs]
    dsimp only
    rw [hct]
    dsimp only
    rw [hcss]
    simp
  · rw [h32]
    simp [VState.addErr]
  · rw [h32]
    simp [VState.addErr]
  · intro hsd
    have : checkSchemas reg js chk
        ((st.addErr ("Missing required directory: " ++ (reg.root ++ "/transforms"))).addErr
          ("Transforms directory not found: " ++ reg.root ++ "/transforms")) =
        (true, ((st.addErr ("Missing required directory: " ++ (reg.root ++ "/transforms"))).addErr
          ("Transforms directory not found: " ++ reg.root ++ "/transforms")).addWarn
            ("Schemas directory not found: " ++ reg.root ++ "/schemas")) := by
      simp [checkSchemas, hsd]
    rw [this] at hcss
    have hst3 : st3 = ((st.addErr ("Missing required directory: " ++ (reg.root ++ "/transforms"))).addErr
        ("Transforms directory not found: " ++ reg.root ++ "/transforms")).addWarn
          ("Schemas directory not found: " ++ reg.root ++ "/schemas") :=
      (congrArg Prod.snd hcss).symm
    rw [hst3]
    simp [VState.addErr, VState.addWarn]

/-- C2 amended, witness at the concrete registry `regNoTransforms`. -/
theorem c2_witness :
    ∃ st' : VState,
      validateAll regNoTransforms true ev0 true chk0 emptyVState = (.ok false, st') ∧
      ("Missing required directory: " ++ (regNoTransforms.root ++ "/transforms")) ∈ st'.errors ∧
      ("Transforms directory not found: " ++ regNoTransforms.root ++ "/transforms") ∈ st'.errors ∧
      (regNoTransforms.hasSchemasDir = false →
        ("Schemas directory not found: " ++ regNoTransforms.root ++ "/schemas") ∈ st'.warnings) :=
  c2_structure_failure_does_not_abort regNoTransforms true ev0 true chk0 emptyVState rfl

/-- C3: the claim is right and the code is wrong.  On a version
directory whose `spec.meta.yaml` is an empty file, `yaml.safe_load`
returns `None`, and the required-field test `field not in meta` at line
174 raises an uncaught `TypeError` that propagates out of
`_validate_transform`, out of `check_transforms`, and out of
`validate_all` — no diagnostic error is recorded and the stage does not
terminate normally, contradicting the documented propagation policy. -/
theorem c3_null_meta_raises :
    validateTransform "/repo" true ev0 unitNullMeta emptyVState =
      (.error (.typeError "argument of type \x27NoneType\x27 is not iterable"),
        emptyVState) ∧
    validateAll regNullMeta true ev0 true chk0 emptyVState =
      (.error (.typeError "argument of type \x27NoneType\x27 is not iterable"),
        emptyVState) :=
  ⟨rfl, rfl⟩

/-- C4 counterexample: metadata that parses to a complete, consistent
mapping lacking only its `checksum` block makes the validator record the
error `Missing required field: checksum` — an error attributable to the
checksum — so absence of a checksum block is *not* tolerated silently. -/
theorem c4_counterexample :
    validateTransform "/repo" true ev0 unitNoChecksum emptyVState =
      (.ok false,
        ⟨["payments/normalize_amount@1.0.0: Missing required field: checksum"], []⟩) := rfl

theorem yget?_none_any (kvs : List (String × YVal)) (k : String)
    (h : yget? kvs k = none) : kvs.any (fun p => p.1 == k) = false := by
  rw [List.any_eq_false]
  intro p hp
  rcases hfind : kvs.find? (fun p => p.1 == k) with _ | q
  · have := List.find?_eq_none.mp hfind p hp
    simpa using this
  · rw [yget?, hfind] at h
    simp at h

theorem requiredFieldsLoop_map_noRaise (tag : String)
    (kvs : List (String × YVal)) :
    ∀ (fs : List String) (st : VState), ∃ (b : Bool) (st' : VState),
      requiredFieldsLoop tag (.map kvs) fs st = (.ok b, st') := by
  intro fs
  induction fs with
  | nil => exact fun st => ⟨true, st, by simp [requiredFieldsLoop]⟩
  | cons f fs ih =>
    intro st
    by_cases hin : kvs.any (fun p => p.1 == f)
    · obtain ⟨b, st', hb⟩ := ih st
      exact ⟨b, st', by simp [requiredFieldsLoop, pyIn, hin, hb]⟩
    · obtain ⟨b, st', hb⟩ :=
        ih (st.addErr (tag ++ ": Missing required field: " ++ f))
      refine ⟨false && b, st', ?_⟩
      simp only [requiredFieldsLoop, pyIn, hin]
      simp only [Bool.false_eq_true, if_false, seqAnd, hb]

theorem missing_checksum_in_loop (tag : String)
    (kvs : List (String × YVal)) (hnone : yget? kvs "checksum" = none) :
    ∀ (fs : List String) (st : VState), "checksum" ∈ fs →
      ∃ st' : VState,
        requiredFieldsLoop tag (.map kvs) fs st = (.ok false, st') ∧
        ((tag ++ ": Missing required field: ") ++ "checksum") ∈ st'.errors := by
  intro fs
  induction fs with
  | nil => intro st h; simp at h
  | cons f fs ih =>
    intro st hmem
    by_cases hf : f = "checksum"
    · subst hf
      have hany := yget?_none_any kvs "checksum" hnone
      obtain ⟨b, st', hb⟩ :=
        requiredFieldsLoop_map_noRaise tag kvs fs
          (st.addErr (tag ++ ": Missing required field: " ++ "checksum"))
      obtain ⟨Δe, Δw, h2, _, _⟩ :=
        appends_requiredFieldsLoop tag (.map kvs) fs
          (st.addErr (tag ++ ": Missing required field: " ++ "checksum"))
      rw [hb] at h2
      simp only at h2
      refine ⟨st', ?_, ?_⟩
      · simp only [requiredFieldsLoop, pyIn, hany]
        simp only [Bool.false_eq_true, if_false, seqAnd, hb]
        simp
      · rw [h2]
        simp [VState.addErr]
    · have hmem' : "checksum" ∈ fs := by
        rcases List.mem_cons.mp hmem with h | h
        · exact absurd h.symm hf
        · exact h
      by_cases hin : kvs.any (fun p => p.1 == f)
      · obtain ⟨st', hb, hm⟩ := ih st hmem'
        exact ⟨st', by simp [requiredFieldsLoop, pyIn, hin, hb], hm⟩
      · obtain ⟨st', hb, hm⟩ :=
          ih (st.addErr (tag ++ ": Missing required field: " ++ f)) hmem'
        refine ⟨st', ?_, hm⟩
        simp only [requiredFieldsLoop, pyIn, hin]
        simp only [Bool.false_eq_true, if_false, seqAnd, hb]
        simp

/-- C4 amended: an absent checksum block is *not* silent — `checksum`
is in the validator's required-field list, so its absence records the
error `Missing required field: checksum`; but checksum *verification*
is indeed opportunistic: with no checksum block (or a checksum block
without a `jsonata_sha256` digest) the verification step computes
nothing, records nothing, and succeeds, so no checksum-mismatch error
can arise. -/
theorem c4_missing_checksum_behaviour :
    ("checksum" ∈ requiredFields) ∧
    (∀ (tag : String) (kvs : List (String × YVal)) (bytes : List Byte)
      (st : VState), yget? kvs "checksum" = none →
      checksumStep tag (.map kvs) bytes st = (.ok true, st) ∧
      ∃ st' : VState,
        requiredFieldsLoop tag (.map kvs) requiredFields st = (.ok false, st') ∧
        ((tag ++ ": Missing required field: ") ++ "checksum") ∈ st'.errors) ∧
    (∀ (tag : String) (kvs ckvs : List (String × YVal)) (bytes : List Byte)
      (st : VState), yget? kvs "checksum" = some (.map ckvs) →
      yget? ckvs "jsonata_sha256" = none →
      checksumStep tag (.map kvs) bytes st = (.ok true, st)) := by
  refine ⟨by simp [requiredFields], ?_, ?_⟩
  · intro tag kvs bytes st hnone
    constructor
    · have hany := yget?_none_any kvs "checksum" hnone
      simp [checksumStep, pyIn, hany]
    · exact missing_checksum_in_loop tag kvs hnone requiredFields st
        (by simp [requiredFields])
  · intro tag kvs ckvs bytes st hsome hnone
    have hany : kvs.any (fun p => p.1 == "checksum") = true := by
      simp only [yget?] at hsome
      rcases hfind : kvs.find? (fun p => p.1 == "checksum") with _ | p
      · rw [hfind] at hsome
        simp at hsome
      · rw [List.any_eq_true]
        have := List.find?_some hfind
        exact ⟨p, List.mem_of_find?_eq_some hfind, this⟩
    have hany2 := yget?_none_any ckvs "jsonata_sha256" hnone
    simp [checksumStep, pyIn, hany, pyIndex, hsome, hany2]

/-- C4 amended, witness at the concrete checksum-free metadata. -/
theorem c4_witness :
    checksumStep "t" (.map [("id", .str "x")]) [] emptyVState =
      (.ok true, emptyVState) ∧
    ∃ st' : VState,
      requiredFieldsLoop "t" (.map [("id", .str "x")]) requiredFields emptyVState =
        (.ok false, st') ∧
      (("t" ++ ": Missing required field: ") ++ "checksum") ∈ st'.errors :=
  (c4_missing_checksum_behaviour.2.1 "t" [("id", .str "x")] [] emptyVState rfl)

set_option maxRecDepth 100000 in
/-- Sanity vector: the embedded SHA-256 agrees with FIPS 180-4 on
`"abc"`. -/
theorem sha256hex_abc :
    sha256hex bytesABC =
      "ba7816bf8f01cfea414140de5dae2223b00361a396177a9cb410ff61f20015ad" := by
  decide

/-- All eight hash words lie below `2^32`. -/
def H8.Bounded (s : H8) : Prop :=
  s.a < 4294967296 ∧ s.b < 4294967296 ∧ s.c < 4294967296 ∧
  s.d < 4294967296 ∧ s.e < 4294967296 ∧ s.f < 4294967296 ∧
  s.g < 4294967296 ∧ s.h < 4294967296

theorem bounded_compressBlock (s : H8) (blk : List Nat) :
    (compressBlock s blk).Bounded := by
  simp only [H8.Bounded, compressBlock, w32]
  omega

theorem bounded_foldl_compress :
    ∀ (blocks : List (List Nat)) (s : H8), s.Bounded →
      (blocks.foldl compressBlock s).Bounded := by
  intro blocks
  induction blocks with
  | nil => exact fun s hs => hs
  | cons b rest ih =>
    intro s _
    rw [List.foldl_cons]
    exact ih (compressBlock s b) (bounded_compressBlock s b)

theorem bounded_sha256Words (msg : List Byte) : (sha256Words msg).Bounded :=
  bounded_foldl_compress _ sha256H0
    (by simp only [H8.Bounded, sha256H0]; norm_num)

/-- The hash words packaged into a finite codomain. -/
def sha256F (msg : List Byte) :
    Fin 4294967296 × Fin 4294967296 × Fin 4294967296 × Fin 4294967296 ×
    Fin 4294967296 × Fin 4294967296 × Fin 4294967296 × Fin 4294967296 :=
  let h := bounded_sha256Words msg
  (⟨(sha256Words msg).a, h.1⟩, ⟨(sha256Words msg).b, h.2.1⟩,
   ⟨(sha256Words msg).c, h.2.2.1⟩, ⟨(sha256Words msg).d, h.2.2.2.1⟩,
   ⟨(sha256Words msg).e, h.2.2.2.2.1⟩, ⟨(sha256Words msg).f, h.2.2.2.2.2.1⟩,
   ⟨(sha256Words msg).g, h.2.2.2.2.2.2.1⟩, ⟨(sha256Words msg).h, h.2.2.2.2.2.2.2⟩)

/-- By pigeonhole, SHA-256 is not injective on byte strings: some two
distinct byte strings share their digest (no concrete pair is known,
but existence is a theorem — the digest space is finite and the input
space is not). -/
theorem sha256_collision :
    ∃ B Bp : List Byte, B ≠ Bp ∧ sha256hex B = sha256hex Bp := by
  obtain ⟨B, Bp, hne, heq⟩ := Finite.exists_ne_map_eq_of_infinite sha256F
  refine ⟨B, Bp, hne, ?_⟩
  have ha := congrArg (fun t => (t.1 : Fin 4294967296).val) heq
  have hb := congrArg (fun t => (t.2.1 : Fin 4294967296).val) heq
  have hc := congrArg (fun t => (t.2.2.1 : Fin 4294967296).val) heq
  have hd := congrArg (fun t => (t.2.2.2.1 : Fin 4294967296).val) heq
  have he := congrArg (fun t => (t.2.2.2.2.1 : Fin 4294967296).val) heq
  have hf := congrArg (fun t => (t.2.2.2.2.2.1 : Fin 4294967296).val) heq
  have hg := congrArg (fun t => (t.2.2.2.2.2.2.1 : Fin 4294967296).val) heq
  have hh := congrArg (fun t => (t.2.2.2.2.2.2.2 : Fin 4294967296).val) heq
  simp only [sha256F] at ha hb hc hd he hf hg hh
  rw [sha256hex, sha256hex, ha, hb, hc, hd, he, hf, hg, hh]

theorem pyEqb_str_str (a b : String) : pyEqb (.str a) (.str b) = (a == b) := by
  simp [pyEqb, canon, ybeq]

/-- C5 amended: checksum verification is decided by digest equality,
not byte equality.  With declared digest `sha256(B)` and content `B`
verification passes with no error; with any declared digest `d`
different from the recomputed digest of the actual bytes, verification
fails and the error names both the declared and the recomputed digest.
(The original claim — that *every* content change under an unchanged
declared digest fails verification — is the injectivity of SHA-256,
which is false; see the counterexample.) -/
theorem c5_checksum_verification :
    (∀ (B : List Byte) (tag : String) (st : VState),
      checksumStep tag (metaDecl (sha256hex B)) B st = (.ok true, st)) ∧
    (∀ (B : List Byte) (d tag : String) (st : VState), d ≠ sha256hex B →
      checksumStep tag (metaDecl d) B st =
        (.ok false, st.addErr (tag ++ ": Checksum mismatch (expected " ++ d ++
          ", got " ++ sha256hex B ++ ")"))) := by
  constructor
  · intro B tag st
    simp [checksumStep, metaDecl, pyIn, pyIndex, yget?, pyEqb_str_str]
  · intro B d tag st hne
    simp [checksumStep, metaDecl, pyIn, pyIndex, yget?, pyEqb_str_str, hne, pyStrOf]

/-- C5 counterexample: the claim's second half, read as stated — for
*every* `B'` differing from `B` in at least one byte while keeping the
declared digest `sha256(B)`, verification fails — is false, because
SHA-256 has collisions: for some such pair verification still passes. -/
theorem c5_counterexample :
    ¬ (∀ B Bp : List Byte, Bp ≠ B →
        (checksumStep "t" (metaDecl (sha256hex B)) Bp emptyVState).1 =
          .ok false) := by
  intro hclaim
  obtain ⟨B, Bp, hne, heq⟩ := sha256_collision
  have hfail := hclaim B Bp (Ne.symm hne)
  have hpass : checksumStep "t" (metaDecl (sha256hex B)) Bp emptyVState =
      (.ok true, emptyVState) := by
    rw [heq]
    exact c5_checksum_verification.1 Bp "t" emptyVState
  rw [hpass] at hfail
  simp at hfail

theorem firstOccs_cons_pos {seen : List (String × String)} {u : VUnit}
    {rest : List VUnit} (h : seen.contains u.key = true) :
    firstOccs seen (u :: rest) = firstOccs seen rest := by
  simp only [firstOccs]
  rw [h]
  simp

theorem firstOccs_cons_neg {seen : List (String × String)} {u : VUnit}
    {rest : List VUnit} (h : seen.contains u.key = false) :
    firstOccs seen (u :: rest) = u :: firstOccs (seen ++ [u.key]) rest := by
  simp only [firstOccs]
  rw [h]
  simp

theorem dupsOf_cons_pos {seen : List (String × String)} {u : VUnit}
    {rest : List VUnit} (h : seen.contains u.key = true) :
    dupsOf seen (u :: rest) = u.key :: dupsOf seen rest := by
  simp only [dupsOf]
  rw [h]
  simp

theorem dupsOf_cons_neg {seen : List (String × String)} {u : VUnit}
    {rest : List VUnit} (h : seen.contains u.key = false) :
    dupsOf seen (u :: rest) = dupsOf (seen ++ [u.key]) rest := by
  simp only [dupsOf]
  rw [h]
  simp

theorem processUnits_trace (root : String) (ja : Bool) (ev : Evaluator) :
    ∀ (us : List VUnit) (ts ts' : TransState),
      processUnits root ja ev us ts = .ok ts' →
      ts'.validated = ts.validated ++ firstOccs ts.seen us ∧
      ts'.dups = ts.dups ++ dupsOf ts.seen us ∧
      ∃ Δc : List VUnit, ts'.counted = ts.counted ++ Δc ∧
        ts'.count = ts.count + Δc.length ∧ Δc.Sublist (firstOccs ts.seen us) := by
  intro us
  induction us with
  | nil =>
    intro ts ts' h
    simp only [processUnits, Except.ok.injEq] at h
    subst h
    exact ⟨by simp [firstOccs], by simp [dupsOf], [], by simp, by simp, by simp [firstOccs]⟩
  | cons u rest ih =>
    intro ts ts' h
    by_cases hdup : ts.seen.contains u.key = true
    · have hd' : ts.seen.contains (u.tid, u.version) = true := hdup
      simp only [processUnits, hd', if_pos] at h
      obtain ⟨hval, hdups, Δc, hcounted, hcount, hsub⟩ := ih _ _ h
      refine ⟨?_, ?_, Δc, ?_, ?_, ?_⟩
      · rw [hval, firstOccs_cons_pos hdup]
      · rw [hdups, dupsOf_cons_pos hdup]
        simp [VUnit.key]
      · simpa using hcounted
      · simpa using hcount
      · rw [firstOccs_cons_pos hdup]
        simpa using hsub
    · have hdup' : ts.seen.contains u.key = false := by
        simpa using hdup
      have hd' : ts.seen.contains (u.tid, u.version) = false := hdup'
      simp only [processUnits, hd', Bool.false_eq_true, if_false] at h
      rcases hvs : validateTransform root ja ev u ts.st with ⟨r, st1⟩
      rw [hvs] at h
      cases r with
      | error e => exact absurd h (by simp)
      | ok ok =>
        cases ok with
        | true =>
          obtain ⟨hval, hdups, Δc, hcounted, hcount, hsub⟩ := ih _ _ h
          refine ⟨?_, ?_, u :: Δc, ?_, ?_, ?_⟩
          · rw [hval, firstOccs_cons_neg hdup']
            simp [VUnit.key]
          · rw [hdups, dupsOf_cons_neg hdup']
            simp [VUnit.key]
          · rw [hcounted]
            simp
          · rw [hcount]
            simp [Nat.add_comm, Nat.add_assoc, Nat.add_left_comm]
          · rw [firstOccs_cons_neg hdup']
            exact List.Sublist.cons₂ u (by simpa [VUnit.key] using hsub)
        | false =>
          obtain ⟨hval, hdups, Δc, hcounted, hcount, hsub⟩ := ih _ _ h
          refine ⟨?_, ?_, Δc, ?_, ?_, ?_⟩
          · rw [hval, firstOccs_cons_neg hdup']
            simp [VUnit.key]
          · rw [hdups, dupsOf_cons_neg hdup']
            simp [VUnit.key]
          · simpa using hcounted
          · simpa using hcount
          · rw [firstOccs_cons_neg hdup']
            exact List.Sublist.cons u (by simpa [VUnit.key] using hsub)

theorem firstOccs_count_of_mem (p : String × String) :
    ∀ (us : List VUnit) (seen : List (String × String)), p ∈ seen →
      ((firstOccs seen us).map VUnit.key).count p = 0 ∧
      (dupsOf seen us).count p = (us.map VUnit.key).count p := by
  intro us
  induction us with
  | nil => intro seen _; simp [firstOccs, dupsOf]
  | cons u rest ih =>
    intro seen hmem
    by_cases hc : seen.contains u.key = true
    · obtain ⟨h1, h2⟩ := ih seen hmem
      constructor
      · rw [firstOccs_cons_pos hc]
        exact h1
      · rw [dupsOf_cons_pos hc]
        simp [List.count_cons, h2]
    · have hc' : seen.contains u.key = false := by simpa using hc
      have hne : ¬ (u.key == p) = true := by
        intro hb
        have heq : u.key = p := by simpa using hb
        subst heq
        exact hc (List.elem_iff.mpr hmem)
      obtain ⟨h1, h2⟩ := ih (seen ++ [u.key]) (by simp [hmem])
      constructor
      · rw [firstOccs_cons_neg hc']
        simp [List.count_cons, h1, hne]
      · rw [dupsOf_cons_neg hc']
        simp [List.count_cons, h2, hne]

theorem firstOccs_count_of_not_mem (p : String × String) :
    ∀ (us : List VUnit) (seen : List (String × String)), p ∉ seen →
      ((firstOccs seen us).map VUnit.key).count p =
        min 1 ((us.map VUnit.key).count p) ∧
      (dupsOf seen us).count p =
        (us.map VUnit.key).count p - min 1 ((us.map VUnit.key).count p) := by
  intro us
  induction us with
  | nil => intro seen _; simp [firstOccs, dupsOf]
  | cons u rest ih =>
    intro seen hmem
    by_cases hc : seen.contains u.key = true
    · have hne : ¬ (u.key == p) = true := by
        intro hb
        have heq : u.key = p := by simpa using hb
        subst heq
        exact hmem (List.elem_iff.mp hc)
      obtain ⟨h1, h2⟩ := ih seen hmem
      constructor
      · rw [firstOccs_cons_pos hc]
        simp [List.count_cons, h1, hne]
      · rw [dupsOf_cons_pos hc]
        simp [List.count_cons, h2, hne]
    · have hc' : seen.contains u.key = false := by simpa using hc
      by_cases hkey : (u.key == p) = true
      · have hkp : u.key = p := by simpa using hkey
        obtain ⟨h1, h2⟩ := firstOccs_count_of_mem p rest (seen ++ [u.key])
          (by simp [hkp])
        constructor
        · rw [firstOccs_cons_neg hc']
          simp [List.count_cons, h1, hkey]
        · rw [dupsOf_cons_neg hc']
          simp [List.count_cons, h2, hkey]
      · obtain ⟨h1, h2⟩ := ih (seen ++ [u.key]) (by
          intro hin
          rcases List.mem_append.mp hin with hmem2 | hmem2
          · exact hmem hmem2
          · simp at hmem2
            exact absurd (beq_iff_eq.mpr hmem2.symm) hkey)
        constructor
        · rw [firstOccs_cons_neg hc']
          simp [List.count_cons, h1, hkey]
        · rw [dupsOf_cons_neg hc']
          simp [List.count_cons, h2, hkey]

/-- C8: in a traversal where two version directories yield the same
`(transform id, version)` pair, exactly one duplicate-transform error
event is recorded, only the first occurrence is handed to per-unit
validation (the second is skipped), and the success count counts a
subset of the validated units, so the skipped occurrence is excluded
from it. -/
theorem c8_duplicate_unit_handling (root : String) (ja : Bool)
    (ev : Evaluator) (us : List VUnit) (p : String × String)
    (ts' : TransState)
    (hocc : (us.map VUnit.key).count p = 2)
    (hrun : processUnits root ja ev us (initTransState emptyVState) = .ok ts') :
    ts'.dups.count p = 1 ∧
    (ts'.validated.map VUnit.key).count p = 1 ∧
    ts'.count = ts'.counted.length ∧
    (ts'.counted.map VUnit.key).count p ≤ 1 := by
  obtain ⟨hval, hdups, Δc, hcounted, hcount, hsub⟩ :=
    processUnits_trace root ja ev us (initTransState emptyVState) ts' hrun
  obtain ⟨h1, h2⟩ := firstOccs_count_of_not_mem p us [] (by simp)
  have hv : (ts'.validated.map VUnit.key).count p = 1 := by
    rw [hval]
    simp only [initTransState, List.nil_append]
    rw [h1, hocc]
    decide
  refine ⟨?_, hv, ?_, ?_⟩
  · rw [hdups]
    simp only [initTransState, List.nil_append]
    rw [h2, hocc]
    decide
  · rw [hcounted, hcount]
    simp [initTransState]
  · calc (ts'.counted.map VUnit.key).count p
        = ((initTransState emptyVState).counted.map VUnit.key ++
            Δc.map VUnit.key).count p := by rw [hcounted]; simp
      _ = (Δc.map VUnit.key).count p := by simp [initTransState]
      _ ≤ ((firstOccs [] us).map VUnit.key).count p :=
          List.Sublist.count_le (List.Sublist.map VUnit.key
            (by simpa [initTransState] using hsub)) p
      _ = 1 := by rw [h1, hocc]; decide

/-- C8 witness: two version directories with the same id and version. -/
theorem c8_witness :
    ∃ ts' : TransState,
      processUnits "/repo" true ev0 [uDup, uDup] (initTransState emptyVState) =
        .ok ts' ∧
      (ts'.dups.count uDup.key = 1 ∧
       (ts'.validated.map VUnit.key).count uDup.key = 1 ∧
       ts'.count = ts'.counted.length ∧
       (ts'.counted.map VUnit.key).count uDup.key ≤ 1) :=
  ⟨_, rfl, c8_duplicate_unit_handling "/repo" true ev0 [uDup, uDup] uDup.key _
    (by decide) rfl⟩

/-- C7 counterexample: a metadata record whose provenance block is
present but empty (no author, no creation timestamp) still yields an
index entry *with* an `author` key (defaulted to `"Unknown"`) and a
`created_utc` key (defaulted to `null`) — not an entry without those
keys. -/
theorem c7_counterexample :
    readTransformMeta "payments" "normalize_amount" vdEmptyProv =
      some entryEmptyProv := rfl

theorem any_eq_isSome (kvs : List (String × YVal)) (k : String) :
    kvs.any (fun p => p.1 == k) = (yget? kvs k).isSome := by
  cases hf : kvs.find? (fun p => p.1 == k) with
  | none =>
    have hall : ∀ p ∈ kvs, ¬ (p.1 == k) = true := fun p hp => by
      simpa using List.find?_eq_none.mp hf p hp
    simp [yget?, hf, List.any_eq_false.mpr hall]
  | some q =>
    simp [yget?, hf,
      List.any_eq_true.mpr ⟨q, List.mem_of_find?_eq_some hf, List.find?_some hf⟩]

theorem except_bind_ok {α β : Type} (a : α) (f : α → Except PyErr β) :
    (Except.ok a : Except PyErr α) >>= f = f a := rfl

theorem except_bind_err {α β : Type} (e : PyErr) (f : α → Except PyErr β) :
    (Except.error e : Except PyErr α) >>= f = Except.error e := rfl

theorem checksumField_map (kvs : List (String × YVal)) :
    checksumField (.map kvs) = .ok (yget? kvs "checksum") := by
  rw [checksumField]
  simp only [pyIn, any_eq_isSome, except_bind_ok]
  rcases h : yget? kvs "checksum" with _ | v
  · simp [h]
    rfl
  · simp [h, pyIndex, except_bind_ok]

theorem provFields_map_none (kvs : List (String × YVal))
    (h : yget? kvs "provenance" = none) :
    provFields (.map kvs) = .ok (none, none) := by
  rw [provFields]
  simp only [pyIn, any_eq_isSome, except_bind_ok, h]
  rfl

theorem provFields_map_map (kvs pkvs : List (String × YVal))
    (h : yget? kvs "provenance" = some (.map pkvs)) :
    provFields (.map kvs) =
      .ok (some ((yget? pkvs "author").getD (.str "Unknown")),
           some ((yget? pkvs "created_utc").getD .null)) := by
  rw [provFields]
  simp only [pyIn, any_eq_isSome, except_bind_ok, h]
  simp [pyIndex, h, pyGet, except_bind_ok]

theorem provFields_map_ok (kvs : List (String × YVal))
    (av : Option YVal × Option YVal) (h : provFields (.map kvs) = .ok av) :
    (av.1.isSome ↔ (yget? kvs "provenance").isSome) ∧
    (av.2.isSome ↔ (yget? kvs "provenance").isSome) := by
  rcases hpv : yget? kvs "provenance" with _ | pv
  · rw [provFields_map_none kvs hpv] at h
    simp only [Except.ok.injEq] at h
    subst h
    simp [hpv]
  · cases pv with
    | map pkvs =>
      rw [provFields_map_map kvs pkvs hpv] at h
      simp only [Except.ok.injEq] at h
      subst h
      simp [hpv]
    | null =>
      rw [provFields] at h
      simp only [pyIn, any_eq_isSome, except_bind_ok, hpv] at h
      simp [pyIndex, hpv, pyGet, except_bind_ok, except_bind_err] at h
    | bool b =>
      rw [provFields] at h
      simp only [pyIn, any_eq_isSome, except_bind_ok, hpv] at h
      simp [pyIndex, hpv, pyGet, except_bind_ok, except_bind_err] at h
    | int n =>
      rw [provFields] at h
      simp only [pyIn, any_eq_isSome, except_bind_ok, hpv] at h
      simp [pyIndex, hpv, pyGet, except_bind_ok, except_bind_err] at h
    | str sv =>
      rw [provFields] at h
      simp only [pyIn, any_eq_isSome, except_bind_ok, hpv] at h
      simp [pyIndex, hpv, pyGet, except_bind_ok, except_bind_err] at h
    | list xs =>
      rw [provFields] at h
      simp only [pyIn, any_eq_isSome, except_bind_ok, hpv] at h
      simp [pyIndex, hpv, pyGet, except_bind_ok, except_bind_err] at h

theorem compatField_map_none (kvs : List (String × YVal))
    (h : yget? kvs "compat" = none) : compatField (.map kvs) = .ok none := by
  rw [compatField]
  simp only [pyIn, any_eq_isSome, except_bind_ok, h]
  rfl

theorem compatField_map_map_none (kvs ckvs : List (String × YVal))
    (h : yget? kvs "compat" = some (.map ckvs))
    (hr : yget? ckvs "from_schema_range" = none) :
    compatField (.map kvs) = .ok none := by
  rw [compatField]
  simp only [pyIn, any_eq_isSome, except_bind_ok, h]
  simp [pyIndex, h, except_bind_ok, any_eq_isSome, hr]
  rfl

/-- C7 amended: the `checksum` and `compat` keys are emitted only when
the source metadata provides them, but `author` and `created_utc` are
emitted whenever a provenance *block* is present, regardless of whether
the block provides them — a provenance block without an author yields
`author: "Unknown"`, and one without a creation timestamp yields
`created_utc: null`.  Both keys are absent only when the whole
provenance block is absent. -/
theorem c7_optional_key_projection (cat tname : String) (vd : VersionDirM)
    (kvs : List (String × YVal)) (entry : VEntry)
    (hh : vd.hasMeta = true) (hm : vd.metaParse = .ok (.map kvs))
    (he : readTransformMeta cat tname vd = some entry) :
    entry.checksum = yget? kvs "checksum" ∧
    (entry.author.isSome ↔ (yget? kvs "provenance").isSome) ∧
    (entry.created_utc.isSome ↔ (yget? kvs "provenance").isSome) ∧
    (∀ pkvs, yget? kvs "provenance" = some (.map pkvs) →
      entry.author = some ((yget? pkvs "author").getD (.str "Unknown")) ∧
      entry.created_utc = some ((yget? pkvs "created_utc").getD .null)) ∧
    (yget? kvs "compat" = none → entry.compat = none) ∧
    (∀ ckvs, yget? kvs "compat" = some (.map ckvs) →
      yget? ckvs "from_schema_range" = none → entry.compat = none) := by
  rw [readTransformMeta, hm] at he
  simp only [hh, Bool.not_true, Bool.false_eq_true, if_false] at he
  rcases hb : buildVersionEntry cat tname vd.vname (.map kvs) with e | e'
  · rw [hb] at he
    simp at he
  · rw [hb] at he
    simp only [Option.some.injEq] at he
    subst he
    rw [buildVersionEntry] at hb
    simp only [pyGet, except_bind_ok, checksumField_map] at hb
    rcases hap : provFields (.map kvs) with e | av
    · rw [hap] at hb
      simp [except_bind_err] at hb
    · rw [hap] at hb
      simp only [except_bind_ok] at hb
      rcases hcf : compatField (.map kvs) with e | cf
      · rw [hcf] at hb
        simp [except_bind_err] at hb
      · rw [hcf] at hb
        simp only [except_bind_ok] at hb
        have hbe : e' = ⟨(yget? kvs "version").getD .null,
            (yget? kvs "from_schema").getD .null,
            (yget? kvs "to_schema").getD .null,
            (yget? kvs "status").getD (.str "draft"),
            "transforms/" ++ cat ++ "/" ++ tname ++ "/" ++ vd.vname ++ "/",
            yget? kvs "checksum", av.1, av.2, cf⟩ := by
          have := hb.symm
          simpa [pure, Except.pure] using this
        subst hbe
        refine ⟨rfl, (provFields_map_ok kvs av hap).1,
          (provFields_map_ok kvs av hap).2, ?_, ?_, ?_⟩
        · intro pkvs hp
          rw [provFields_map_map kvs pkvs hp] at hap
          simp only [Except.ok.injEq] at hap
          rw [← hap]
          exact ⟨rfl, rfl⟩
        · intro hcm
          rw [compatField_map_none kvs hcm] at hcf
          simp only [Except.ok.injEq] at hcf
          exact hcf.symm
        · intro ckvs hcm hr
          rw [compatField_map_map_none kvs ckvs hcm hr] at hcf
          simp only [Except.ok.injEq] at hcf
          exact hcf.symm

/-- C7 amended, witness at the empty-provenance fixture. -/
theorem c7_witness :
    entryEmptyProv.checksum = yget? kvsEmptyProv "checksum" ∧
    (entryEmptyProv.author.isSome ↔ (yget? kvsEmptyProv "provenance").isSome) ∧
    (entryEmptyProv.created_utc.isSome ↔ (yget? kvsEmptyProv "provenance").isSome) ∧
    (∀ pkvs, yget? kvsEmptyProv "provenance" = some (.map pkvs) →
      entryEmptyProv.author = some ((yget? pkvs "author").getD (.str "Unknown")) ∧
      entryEmptyProv.created_utc = some ((yget? pkvs "created_utc").getD .null)) ∧
    (yget? kvsEmptyProv "compat" = none → entryEmptyProv.compat = none) ∧
    (∀ ckvs, yget? kvsEmptyProv "compat" = some (.map ckvs) →
      yget? ckvs "from_schema_range" = none → entryEmptyProv.compat = none) :=
  c7_optional_key_projection "payments" "normalize_amount" vdEmptyProv
    kvsEmptyProv entryEmptyProv rfl rfl rfl

set_option maxRecDepth 100000 in
/-- C5 amended, witness: on the concrete bytes of `"abc"` a matching
declared digest passes, and an all-zero declared digest fails naming
both digests. -/
theorem c5_witness :
    checksumStep "t" (metaDecl (sha256hex bytesABC)) bytesABC emptyVState =
      (.ok true, emptyVState) ∧
    checksumStep "t"
        (metaDecl "0000000000000000000000000000000000000000000000000000000000000000")
        bytesABC emptyVState =
      (.ok false, emptyVState.addErr ("t" ++ ": Checksum mismatch (expected " ++
        "0000000000000000000000000000000000000000000000000000000000000000" ++
        ", got " ++ sha256hex bytesABC ++ ")")) :=
  ⟨c5_checksum_verification.1 bytesABC "t" emptyVState,
   c5_checksum_verification.2 bytesABC
     "0000000000000000000000000000000000000000000000000000000000000000" "t"
     emptyVState (by decide)⟩

end Canonizer





namespace Canonizer

theorem lookupD_cons (p : String × List VEntry) (rest : Groups) (j : String) :
    lookupD (p :: rest) j = if p.1 == j then p.2 else lookupD rest j := by
  by_cases h : p.1 == j
  · simp [lookupD, List.find?_cons, h]
  · simp only [Bool.not_eq_true] at h
    simp [lookupD, List.find?_cons, h]

theorem any_key_iff (acc : Groups) (id : String) :
    acc.any (fun p => p.1 == id) = true ↔ id ∈ gkeys acc := by
  rw [List.any_eq_true]
  constructor
  · rintro ⟨p, hp, hb⟩
    exact (beq_iff_eq.mp hb) ▸ List.mem_map_of_mem _ hp
  · intro h
    obtain ⟨p, hp, hb⟩ := List.mem_map.mp h
    exact ⟨p, hp, beq_iff_eq.mpr hb⟩

theorem lookupD_append_nil (acc : Groups) (id j : String) :
    lookupD (acc ++ [(id, [])]) j = lookupD acc j := by
  induction acc with
  | nil =>
    by_cases h : id == j <;> simp [lookupD, List.find?_cons, h]
  | cons p rest ih =>
    rw [List.cons_append, lookupD_cons, lookupD_cons]
    by_cases h : p.1 == j
    · simp [h]
    · simp only [Bool.not_eq_true] at h
      simp [h, ih]

theorem lookupD_ensureKey (acc : Groups) (id j : String) :
    lookupD (ensureKey acc id) j = lookupD acc j := by
  rw [ensureKey]
  by_cases h : acc.any (fun p => p.1 == id)
  · simp [h]
  · simp only [h, Bool.false_eq_true, if_false]
    exact lookupD_append_nil acc id j

theorem mem_gkeys_ensureKey (acc : Groups) (id j : String) :
    j ∈ gkeys (ensureKey acc id) ↔ j ∈ gkeys acc ∨ j = id := by
  rw [ensureKey]
  by_cases h : acc.any (fun p => p.1 == id)
  · simp only [h, if_true]
    constructor
    · exact Or.inl
    · rintro (hj | hj)
      · exact hj
      · subst hj
        exact (any_key_iff acc j).mp h
  · simp only [h, Bool.false_eq_true, if_false, gkeys, List.map_append]
    simp [gkeys]

theorem nodup_gkeys_ensureKey (acc : Groups) (id : String)
    (h : (gkeys acc).Nodup) : (gkeys (ensureKey acc id)).Nodup := by
  rw [ensureKey]
  by_cases ha : acc.any (fun p => p.1 == id)
  · simpa [ha]
  · simp only [ha, Bool.false_eq_true, if_false, gkeys, List.map_append]
    refine List.Nodup.append (by simpa [gkeys] using h) (by simp) ?_
    intro j hj hj2
    simp only [List.map_cons, List.map_nil, List.mem_singleton] at hj2
    subst hj2
    exact ha ((any_key_iff acc j).mpr (by simpa [gkeys] using hj))

theorem gkeys_groupAppend (acc : Groups) (id : String) (e : VEntry) :
    gkeys (groupAppend acc id e) = gkeys acc := by
  rw [gkeys, groupAppend, List.map_map, gkeys]
  apply List.map_congr_left
  intro p _
  by_cases h : p.1 = id <;> simp [h]

theorem lookupD_groupAppend_self (acc : Groups) (id : String) (e : VEntry)
    (hin : id ∈ gkeys acc) :
    lookupD (groupAppend acc id e) id = lookupD acc id ++ [e] := by
  induction acc with
  | nil => simp [gkeys] at hin
  | cons p rest ih =>
    by_cases h : p.1 == id
    · have hp : p.1 = id := beq_iff_eq.mp h
      simp [groupAppend, lookupD_cons, h, hp]
    · have hin' : id ∈ gkeys rest := by
        rcases List.mem_cons.mp (by simpa [gkeys] using hin :
            id ∈ p.1 :: gkeys rest) with h1 | h1
        · exact absurd (beq_iff_eq.mpr h1.symm) h
        · exact h1
      have ih' := ih hin'
      have hf : (p.1 == id) = false := by simpa using h
      simp only [groupAppend, List.map_cons, hf, Bool.false_eq_true, if_false,
        lookupD_cons] at ih' ⊢
      exact ih'

theorem lookupD_groupAppend_other (acc : Groups) (id j : String) (e : VEntry)
    (hne : j ≠ id) : lookupD (groupAppend acc id e) j = lookupD acc j := by
  induction acc with
  | nil => rfl
  | cons p rest ih =>
    by_cases h : p.1 == id
    · have hp : p.1 = id := beq_iff_eq.mp h
      have hne2 : (p.1 == j) = false := by
        rw [hp]
        exact beq_eq_false_iff_ne.mpr (fun hc => hne hc.symm)
      simp only [groupAppend, List.map_cons, h, if_true, lookupD_cons, hne2,
        Bool.false_eq_true, if_false] at ih ⊢
      exact ih
    · have hf : (p.1 == id) = false := by simpa using h
      by_cases hpj : p.1 == j
      · have hfp : p.1 ≠ id := by simpa using h
        have hpjp : p.1 = j := by simpa using hpj
        simp [groupAppend, lookupD_cons, hfp, hpjp, hne]
      · have hpjf : (p.1 == j) = false := by simpa using hpj
        simp only [groupAppend, List.map_cons, hf, Bool.false_eq_true, if_false,
          lookupD_cons, hpjf] at ih ⊢
        exact ih

end Canonizer

namespace Canonizer

theorem collectVds_inv (cat tname : String) :
    ∀ (vds : List VersionDirM) (acc : Groups),
      (cat ++ "/" ++ tname) ∈ gkeys acc →
      gkeys (collectVds cat tname vds acc) = gkeys acc ∧
      ∀ j, lookupD (collectVds cat tname vds acc) j =
        lookupD acc j ++ (if j = cat ++ "/" ++ tname then
          vds.filterMap (readTransformMeta cat tname) else []) := by
  intro vds
  induction vds with
  | nil =>
    intro acc _
    refine ⟨rfl, fun j => ?_⟩
    by_cases hj : j = cat ++ "/" ++ tname <;> simp [collectVds, hj]
  | cons vd rest ih =>
    intro acc hin
    cases hr : readTransformMeta cat tname vd with
    | none =>
      obtain ⟨hk, hl⟩ := ih acc hin
      refine ⟨by simpa [collectVds, hr] using hk, fun j => ?_⟩
      have := hl j
      simpa [collectVds, hr, List.filterMap_cons] using this
    | some e =>
      have hin2 : (cat ++ "/" ++ tname) ∈
          gkeys (groupAppend acc (cat ++ "/" ++ tname) e) := by
        rw [gkeys_groupAppend]
        exact hin
      obtain ⟨hk, hl⟩ := ih (groupAppend acc (cat ++ "/" ++ tname) e) hin2
      refine ⟨?_, fun j => ?_⟩
      · rw [collectVds, hr, hk, gkeys_groupAppend]
      · rw [collectVds, hr, hl j]
        by_cases hj : j = cat ++ "/" ++ tname
        · rw [hj, lookupD_groupAppend_self acc _ e hin]
          simp [List.filterMap_cons, hr]
        · rw [lookupD_groupAppend_other acc _ j e hj]
          simp [hj]

theorem collectTds_inv (cname : String) :
    ∀ (tds : List TransformDirM) (acc : Groups),
      (∀ j, j ∈ gkeys (collectTds cname tds acc) ↔
        j ∈ gkeys acc ∨ j ∈ tds.map (fun td => cname ++ "/" ++ td.tname)) ∧
      ((gkeys acc).Nodup → (gkeys (collectTds cname tds acc)).Nodup) ∧
      ∀ j, lookupD (collectTds cname tds acc) j =
        lookupD acc j ++ recsForTds j cname tds := by
  intro tds
  induction tds with
  | nil =>
    intro acc
    exact ⟨fun j => by simp [collectTds], fun h => h,
      fun j => by simp [collectTds, recsForTds]⟩
  | cons td rest ih =>
    intro acc
    have hinek : (cname ++ "/" ++ td.tname) ∈
        gkeys (ensureKey acc (cname ++ "/" ++ td.tname)) :=
      (mem_gkeys_ensureKey acc _ _).mpr (Or.inr rfl)
    obtain ⟨hvk, hvl⟩ :=
      collectVds_inv cname td.tname td.versions
        (ensureKey acc (cname ++ "/" ++ td.tname)) hinek
    obtain ⟨hK, hN, hL⟩ :=
      ih (collectVds cname td.tname td.versions
        (ensureKey acc (cname ++ "/" ++ td.tname)))
    refine ⟨fun j => ?_, fun hnd => ?_, fun j => ?_⟩
    · rw [collectTds, hK j, hvk, mem_gkeys_ensureKey]
      simp only [List.map_cons, List.mem_cons]
      constructor
      · rintro ((hj | hj) | hj)
        · exact Or.inl hj
        · exact Or.inr (Or.inl hj)
        · exact Or.inr (Or.inr hj)
      · rintro (hj | hj | hj)
        · exact Or.inl (Or.inl hj)
        · exact Or.inl (Or.inr hj)
        · exact Or.inr hj
    · rw [collectTds]
      apply hN
      rw [hvk]
      exact nodup_gkeys_ensureKey acc _ hnd
    · rw [collectTds, hL j, hvl j, lookupD_ensureKey, recsForTds]
      by_cases hj : j = cname ++ "/" ++ td.tname
      · have hb : (cname ++ "/" ++ td.tname == j) = true := beq_iff_eq.mpr hj.symm
        simp [hj, hb]
      · have hb : (cname ++ "/" ++ td.tname == j) = false :=
          beq_eq_false_iff_ne.mpr (fun hc => hj hc.symm)
        simp [hj, hb]

theorem collectCats_inv :
    ∀ (cats : List CategoryM) (acc : Groups),
      (∀ j, j ∈ gkeys (collectCats cats acc) ↔
        j ∈ gkeys acc ∨ j ∈ encIds cats) ∧
      ((gkeys acc).Nodup → (gkeys (collectCats cats acc)).Nodup) ∧
      ∀ j, lookupD (collectCats cats acc) j = lookupD acc j ++ recsFor j cats := by
  intro cats
  induction cats with
  | nil =>
    intro acc
    exact ⟨fun j => by simp [collectCats, encIds], fun h => h,
      fun j => by simp [collectCats, recsFor]⟩
  | cons c cs ih =>
    intro acc
    obtain ⟨htK, htN, htL⟩ := collectTds_inv c.cname c.tdirs acc
    obtain ⟨hK, hN, hL⟩ := ih (collectTds c.cname c.tdirs acc)
    refine ⟨fun j => ?_, fun hnd => ?_, fun j => ?_⟩
    · rw [collectCats, hK j, htK j, encIds]
      simp only [List.mem_append]
      tauto
    · rw [collectCats]
      exact hN (htN hnd)
    · rw [collectCats, hL j, htL j, recsFor, List.append_assoc]

end Canonizer

namespace Canonizer

theorem mem_encIds (cat : CategoryM) (td : TransformDirM) :
    ∀ cats : List CategoryM, cat ∈ cats → td ∈ cat.tdirs →
      (cat.cname ++ "/" ++ td.tname) ∈ encIds cats := by
  intro cats
  induction cats with
  | nil => intro h; simp at h
  | cons c cs ih =>
    intro hc ht
    rcases List.mem_cons.mp hc with h1 | h1
    · subst h1
      exact List.mem_append.mpr (Or.inl (List.mem_map.mpr ⟨td, ht, rfl⟩))
    · exact List.mem_append.mpr (Or.inr (ih h1 ht))

theorem pair_mem_of_gkeys (acc : Groups) (id : String)
    (hin : id ∈ gkeys acc) : (id, lookupD acc id) ∈ acc := by
  have hsome : (acc.find? (fun p => p.1 == id)).isSome := by
    rw [List.find?_isSome]
    obtain ⟨p, hp, hpe⟩ := List.mem_map.mp hin
    exact ⟨p, hp, beq_iff_eq.mpr hpe⟩
  rcases hf : acc.find? (fun p => p.1 == id) with _ | q
  · rw [hf] at hsome
    simp at hsome
  · have hqb := List.find?_some hf
    simp only at hqb
    have hq1 : q.1 = id := beq_iff_eq.mp hqb
    have hq : q ∈ acc := List.mem_of_find?_eq_some hf
    have : lookupD acc id = q.2 := by simp [lookupD, hf]
    rw [this, ← hq1]
    exact hq

/-- C10: a transform directory none of whose version directories yields
readable metadata (missing or unparsable `spec.meta.yaml`, or a
wrongly-shaped record) still appears in the index as an entry with an
empty versions list, rather than being omitted: the grouping dictionary
registers the id when the transform directory is seen, before any
version metadata is read.  (`hrec` states that no other directory on
the snapshot contributes records under the same composite id — automatic
on a real filesystem, where the id determines the directory.) -/
theorem c10_unreadable_versions_empty_entry (snap : Snapshot)
    (cat : CategoryM) (td : TransformDirM)
    (hd : snap.hasTransformsDir = true)
    (hc : cat ∈ snap.categories) (ht : td ∈ cat.tdirs)
    (hnone : ∀ vd ∈ td.versions,
      readTransformMeta cat.cname td.tname vd = none)
    (hrec : recsFor (cat.cname ++ "/" ++ td.tname) snap.categories = []) :
    (⟨cat.cname ++ "/" ++ td.tname, []⟩ : TransformEntry) ∈
      collectTransforms snap := by
  obtain ⟨hK, hN, hL⟩ := collectCats_inv snap.categories []
  have hkin : (cat.cname ++ "/" ++ td.tname) ∈
      gkeys (collectCats snap.categories []) :=
    (hK _).mpr (Or.inr (mem_encIds cat td snap.categories hc ht))
  have hlook : lookupD (collectCats snap.categories []) (cat.cname ++ "/" ++ td.tname) = [] := by
    rw [hL _, hrec]
    simp [lookupD]
  have hpair : ((cat.cname ++ "/" ++ td.tname), ([] : List VEntry)) ∈
      collectCats snap.categories [] := by
    have := pair_mem_of_gkeys (collectCats snap.categories []) _ hkin
    rwa [hlook] at this
  have hsorted : ((cat.cname ++ "/" ++ td.tname), ([] : List VEntry)) ∈
      (collectCats snap.categories []).mergeSort (fun p q => decide (p.1 ≤ q.1)) :=
    (List.Perm.mem_iff (List.mergeSort_perm _ _)).mpr hpair
  rw [collectTransforms]
  simp only [hd, Bool.not_true, Bool.false_eq_true, if_false]
  refine List.mem_map.mpr ⟨((cat.cname ++ "/" ++ td.tname), ([] : List VEntry)),
    hsorted, ?_⟩
  simp [List.mergeSort_nil]

/-- C10 witness: a snapshot with one transform directory whose only
version directory has no metadata file. -/
theorem c10_witness :
    (⟨catNoMeta.cname ++ "/" ++ tdNoMeta.tname, []⟩ : TransformEntry) ∈
      collectTransforms snapNoMeta :=
  c10_unreadable_versions_empty_entry snapNoMeta catNoMeta tdNoMeta rfl
    (by simp [snapNoMeta]) (by simp [catNoMeta])
    (by intro vd hvd
        simp [tdNoMeta] at hvd
        subst hvd
        rfl)
    rfl

end Canonizer

namespace Canonizer

theorem assoc_val_eq (acc : Groups) (hnd : (gkeys acc).Nodup) :
    ∀ p ∈ acc, lookupD acc p.1 = p.2 := by
  induction acc with
  | nil => intro p hp; simp at hp
  | cons q rest ih =>
    intro p hp
    rcases List.mem_cons.mp hp with h1 | h1
    · subst h1
      simp [lookupD_cons]
    · have hq1 : q.1 ∉ gkeys rest := by
        have := hnd
        simp only [gkeys, List.map_cons, List.nodup_cons] at this
        exact fun hc => this.1 (by simpa [gkeys] using hc)
      have hne : (q.1 == p.1) = false := by
        refine beq_eq_false_iff_ne.mpr (fun hc => hq1 ?_)
        rw [hc]
        exact List.mem_map_of_mem _ h1
      rw [lookupD_cons, hne]
      simp only [Bool.false_eq_true, if_false]
      exact ih (by
        have := hnd
        simp only [gkeys, List.map_cons, List.nodup_cons] at this
        simpa [gkeys] using this.2) p h1

theorem versionLe_trans (a b c : VEntry) (h1 : versionLe a b = true)
    (h2 : versionLe b c = true) : versionLe a c = true := by
  simp only [versionLe, decide_eq_true_eq] at h1 h2 ⊢
  exact le_trans h2 h1

theorem versionLe_total (a b : VEntry) :
    (versionLe a b || versionLe b a) = true := by
  simp only [versionLe, Bool.or_eq_true, decide_eq_true_eq]
  exact le_total _ _

unseal List.merge List.mergeSort in
/-- C6: the generated index groups version records by `category/name` —
ids are unique across entries, every encountered `category/name` id has
its entry, and an entry's versions are exactly the records collected
for its id (up to the sort) — and within each entry the versions are
sorted descending by the version comparator, which on string versions
is raw code-point string comparison.  In particular, the claim's
concrete scenario produces one entry `payments/normalize_amount` whose
versions appear as `["1.1.0", "1.0.0"]`. -/
theorem c6_index_grouping_and_order :
    (∀ snap : Snapshot,
      ((collectTransforms snap).map (fun e => e.id)).Nodup ∧
      (∀ e ∈ collectTransforms snap,
        e.versions.Pairwise (fun a b => versionLe a b = true)) ∧
      (∀ e ∈ collectTransforms snap,
        e.versions.Perm (recsFor e.id snap.categories)) ∧
      (snap.hasTransformsDir = true → ∀ cat ∈ snap.categories,
        ∀ td ∈ cat.tdirs, (cat.cname ++ "/" ++ td.tname) ∈
          (collectTransforms snap).map (fun e => e.id))) ∧
    (∀ (a b : VEntry) (sa sb : String), a.version = .str sa →
      b.version = .str sb → (versionLe a b = true ↔ sb ≤ sa)) ∧
    collectTransforms snapScenario =
      [⟨"payments/normalize_amount", [entry110, entry100]⟩] := by
  refine ⟨fun snap => ?_, ?_, ?_⟩
  · by_cases hd : snap.hasTransformsDir
    case neg =>
      have hres : collectTransforms snap = [] := by
        rw [collectTransforms]
        simp only [Bool.not_eq_true] at hd
        simp [hd]
      refine ⟨by simp [hres], by simp [hres], by simp [hres], ?_⟩
      intro hdt
      simp only [Bool.not_eq_true] at hd
      rw [hdt] at hd
      exact absurd hd (by simp)
    case pos =>
      obtain ⟨hK, hN, hL⟩ := collectCats_inv snap.categories []
      have hnd : (gkeys (collectCats snap.categories [])).Nodup :=
        hN (by simp [gkeys])
      have hres : collectTransforms snap =
          ((collectCats snap.categories []).mergeSort
            (fun p q => decide (p.1 ≤ q.1))).map
            (fun p => ⟨p.1, p.2.mergeSort versionLe⟩) := by
        rw [collectTransforms]
        simp [hd]
      have hperm : ((collectCats snap.categories []).mergeSort
          (fun p q => decide (p.1 ≤ q.1))).Perm
          (collectCats snap.categories []) := List.mergeSort_perm _ _
      have hids : (collectTransforms snap).map (fun e => e.id) =
          ((collectCats snap.categories []).mergeSort
            (fun p q => decide (p.1 ≤ q.1))).map (·.1) := by
        rw [hres, List.map_map]
        rfl
      refine ⟨?_, ?_, ?_, ?_⟩
      · rw [hids]
        exact ((hperm.map (·.1)).nodup_iff).mpr (by simpa [gkeys] using hnd)
      · intro e he
        rw [hres] at he
        obtain ⟨p, _, hpe⟩ := List.mem_map.mp he
        rw [← hpe]
        exact List.sorted_mergeSort
          (fun a b c => versionLe_trans a b c) versionLe_total p.2
      · intro e he
        rw [hres] at he
        obtain ⟨p, hp, hpe⟩ := List.mem_map.mp he
        have hpin : p ∈ collectCats snap.categories [] := hperm.mem_iff.mp hp
        have hval : lookupD (collectCats snap.categories []) p.1 = p.2 :=
          assoc_val_eq _ hnd p hpin
        have hrec : p.2 = recsFor p.1 snap.categories := by
          rw [← hval, hL p.1]
          simp [lookupD]
        rw [← hpe]
        simp only
        rw [hrec]
        exact List.mergeSort_perm _ _
      · intro _ cat hc td ht
        rw [hids]
        refine (List.Perm.mem_iff (hperm.map (·.1))).mpr ?_
        have : (cat.cname ++ "/" ++ td.tname) ∈
            gkeys (collectCats snap.categories []) :=
          (hK _).mpr (Or.inr (mem_encIds cat td snap.categories hc ht))
        simpa [gkeys] using this
  · intro a b sa sb ha hb
    simp [versionLe, versionKey, ha, hb]
  · have hphase : collectCats snapScenario.categories [] =
        [("payments/normalize_amount", [entry100, entry110])] := rfl
    have hcmp : ¬ (versionLe entry100 entry110 = true) := by
      have hv : versionLe entry100 entry110 =
          decide (("1.1.0" : String) ≤ "1.0.0") := rfl
      rw [hv, decide_eq_true_eq]
      rw [String.le_iff_toList_le]
      decide
    have hsortv : List.mergeSort [entry100, entry110] versionLe =
        [entry110, entry100] := by
      rw [List.mergeSort]
      show ([entry100].mergeSort versionLe).merge
        ([entry110].mergeSort versionLe) versionLe = [entry110, entry100]
      rw [List.mergeSort_singleton, List.mergeSort_singleton,
        List.cons_merge_cons_neg versionLe [] [] hcmp]
      simp
    rw [collectTransforms]
    rw [if_neg (by simp [snapScenario] : ¬ ((!snapScenario.hasTransformsDir) = true))]
    rw [hphase, List.mergeSort_singleton, List.map_cons, List.map_nil]
    simp only
    rw [hsortv]

theorem c6_witness :
    ([entry110, entry100] : List VEntry).Perm
      (recsFor "payments/normalize_amount" snapScenario.categories) ∧
    ("payments" ++ "/" ++ "normalize_amount") ∈
      (collectTransforms snapScenario).map (fun e => e.id) ∧
    (versionLe entry110 entry100 = true ↔ ("1.0.0" : String) ≤ "1.1.0") := by
  have h := c6_index_grouping_and_order
  refine ⟨?_, ?_, ?_⟩
  · have hm : (⟨"payments/normalize_amount", [entry110, entry100]⟩ :
        TransformEntry) ∈ collectTransforms snapScenario := by
      rw [h.2.2]
      exact List.mem_singleton.mpr rfl
    exact (h.1 snapScenario).2.2.1 _ hm
  · exact (h.1 snapScenario).2.2.2 rfl
      ⟨"payments", [⟨"normalize_amount",
        [⟨"1.0.0", true, .ok (.map [("version", .str "1.0.0")])⟩,
         ⟨"1.1.0", true, .ok (.map [("version", .str "1.1.0")])⟩]⟩]⟩
      (by simp [snapScenario])
      ⟨"normalize_amount",
        [⟨"1.0.0", true, .ok (.map [("version", .str "1.0.0")])⟩,
         ⟨"1.1.0", true, .ok (.map [("version", .str "1.1.0")])⟩]⟩
      (by simp)
  · exact h.2.1 entry110 entry100 "1.1.0" "1.0.0" rfl rfl

theorem perm_pairwise_key_eq {α κ : Type} (key : α → κ) (r : κ → κ → Prop)
    (hanti : ∀ x y, r x y → r y x → x = y) :
    ∀ l1 l2 : List α, l1.Perm l2 →
      l1.Pairwise (fun a b => r (key a) (key b)) →
      l2.Pairwise (fun a b => r (key a) (key b)) →
      (l1.map key).Nodup → l1 = l2 := by
  intro l1
  induction l1 with
  | nil =>
    intro l2 hp _ _ _
    exact hp.nil_eq
  | cons a t1 ih =>
    intro l2 hp h1 h2 hnd
    cases l2 with
    | nil => exact absurd hp.symm.nil_eq (by simp)
    | cons b t2 =>
      have hab : a = b := by
        have ha2 : a ∈ b :: t2 := hp.mem_iff.mp (List.mem_cons_self a t1)
        rcases List.mem_cons.mp ha2 with h | hat2
        · exact h
        · have hb1 : b ∈ a :: t1 := hp.symm.mem_iff.mp (List.mem_cons_self b t2)
          rcases List.mem_cons.mp hb1 with h | hbt1
          · exact h.symm
          · have hr1 : r (key a) (key b) := (List.pairwise_cons.mp h1).1 b hbt1
            have hr2 : r (key b) (key a) := (List.pairwise_cons.mp h2).1 a hat2
            have hk : key a = key b := hanti _ _ hr1 hr2
            have hmem : key b ∈ t1.map key := List.mem_map.mpr ⟨b, hbt1, rfl⟩
            rw [← hk] at hmem
            rw [List.map_cons] at hnd
            exact absurd hmem (List.nodup_cons.mp hnd).1
      subst hab
      have hteq : t1 = t2 := by
        refine ih t2 hp.cons_inv (List.pairwise_cons.mp h1).2
          (List.pairwise_cons.mp h2).2 ?_
        rw [List.map_cons] at hnd
        exact (List.nodup_cons.mp hnd).2
      rw [hteq]

theorem map_eq_of_forall₂ {α β : Type} {r : α → α → Prop} (g : α → β)
    (hg : ∀ a b, r a b → g a = g b) :
    ∀ {l1 l2 : List α}, List.Forall₂ r l1 l2 → l1.map g = l2.map g := by
  intro l1 l2 hf
  induction hf with
  | nil => rfl
  | cons hr _ ih => simp only [List.map_cons, hg _ _ hr, ih]

theorem flatten_perm_of_perm {α : Type} :
    ∀ {L1 L2 : List (List α)}, L1.Perm L2 → L1.flatten.Perm L2.flatten := by
  intro L1 L2 hp
  induction hp with
  | nil => exact .refl _
  | cons x _ ih =>
    simp only [List.flatten_cons]
    exact List.Perm.append (.refl _) ih
  | swap x y l =>
    simp only [List.flatten_cons]
    rw [← List.append_assoc, ← List.append_assoc]
    exact List.Perm.append List.perm_append_comm (.refl _)
  | trans _ _ ih1 ih2 => exact ih1.trans ih2

theorem flatten_perm_of_forall₂ {α : Type} :
    ∀ {L1 L2 : List (List α)}, List.Forall₂ List.Perm L1 L2 →
      L1.flatten.Perm L2.flatten := by
  intro L1 L2 hf
  induction hf with
  | nil => exact .refl _
  | cons hr _ ih =>
    simp only [List.flatten_cons]
    exact List.Perm.append hr ih

theorem forall₂_perm_map {α β : Type} {r : α → α → Prop} (g : α → List β)
    (hg : ∀ a b, r a b → (g a).Perm (g b)) :
    ∀ {l1 l2 : List α}, List.Forall₂ r l1 l2 →
      List.Forall₂ List.Perm (l1.map g) (l2.map g) := by
  intro l1 l2 hf
  induction hf with
  | nil => exact .nil
  | cons hr _ ih => exact .cons (hg _ _ hr) ih

/-- Reordering any directory listing only permutes the flattened list of
per-entry contributions. -/
theorem flatten_map_perm {α β : Type} {r : α → α → Prop} (g : α → List β)
    (hg : ∀ a b, r a b → (g a).Perm (g b)) :
    ∀ {l1 l2 : List α}, RPerm r l1 l2 →
      ((l1.map g).flatten).Perm ((l2.map g).flatten) := by
  intro l1 l2 hre
  obtain ⟨l, hp, hf⟩ := hre
  exact (flatten_perm_of_perm (hp.map g)).trans
    (flatten_perm_of_forall₂ (forall₂_perm_map g hg hf))

theorem recsForTds_eq (id cname : String) :
    ∀ tds : List TransformDirM, recsForTds id cname tds =
      (tds.map (fun td => if cname ++ "/" ++ td.tname == id then
        td.versions.filterMap (readTransformMeta cname td.tname)
       else [])).flatten := by
  intro tds
  induction tds with
  | nil => rfl
  | cons td tds ih => simp only [recsForTds, List.map_cons, List.flatten_cons, ih]

theorem recsFor_eq (id : String) :
    ∀ cs : List CategoryM, recsFor id cs =
      (cs.map (fun c => recsForTds id c.cname c.tdirs)).flatten := by
  intro cs
  induction cs with
  | nil => rfl
  | cons c cs ih => simp only [recsFor, List.map_cons, List.flatten_cons, ih]

theorem encIds_eq :
    ∀ cs : List CategoryM, encIds cs =
      (cs.map (fun c => c.tdirs.map
        (fun td => c.cname ++ "/" ++ td.tname))).flatten := by
  intro cs
  induction cs with
  | nil => rfl
  | cons c cs ih => simp only [encIds, List.map_cons, List.flatten_cons, ih]

theorem recsForTds_reorder (id cname : String) {tds1 tds2 : List TransformDirM}
    (hre : RPerm TdReorder tds1 tds2) :
    (recsForTds id cname tds1).Perm (recsForTds id cname tds2) := by
  rw [recsForTds_eq, recsForTds_eq]
  refine flatten_map_perm _ ?_ hre
  intro a b hr
  obtain ⟨hn, hv⟩ := hr
  rw [hn]
  by_cases hc : (cname ++ "/" ++ b.tname == id) = true
  · simp only [hc, if_true]
    exact hv.filterMap _
  · simp only [hc]
    exact .refl _

theorem recsFor_reorder (id : String) {cs1 cs2 : List CategoryM}
    (hre : RPerm CatReorder cs1 cs2) :
    (recsFor id cs1).Perm (recsFor id cs2) := by
  rw [recsFor_eq, recsFor_eq]
  refine flatten_map_perm _ ?_ hre
  intro a b hr
  obtain ⟨hn, htd⟩ := hr
  rw [hn]
  exact recsForTds_reorder id b.cname htd

theorem encIds_reorder {cs1 cs2 : List CategoryM}
    (hre : RPerm CatReorder cs1 cs2) :
    (encIds cs1).Perm (encIds cs2) := by
  rw [encIds_eq, encIds_eq]
  refine flatten_map_perm _ ?_ hre
  intro a b hr
  obtain ⟨hn, htd⟩ := hr
  rw [hn]
  obtain ⟨l, hp, hf⟩ := htd
  refine (hp.map _).trans (List.Perm.of_eq ?_)
  refine map_eq_of_forall₂ _ ?_ hf
  intro x y hxy
  rw [hxy.1]

theorem collectStems_eq (vendor sname : String) :
    ∀ (stems : List String) (acc : List SchemaEntry),
      collectStems vendor sname stems acc =
        acc ++ stemEntries vendor sname stems := by
  intro stems
  induction stems with
  | nil => intro acc; simp [collectStems, stemEntries]
  | cons st stems ih =>
    intro acc
    rw [collectStems, ih]
    simp [stemEntries]

theorem collectSds_eq (vendor : String) :
    ∀ (sds : List SchemaDirM) (acc : List SchemaEntry),
      collectSds vendor sds acc =
        acc ++ (sds.map (sdEntries vendor)).flatten := by
  intro sds
  induction sds with
  | nil => intro acc; simp [collectSds]
  | cons sd sds ih =>
    intro acc
    rw [collectSds, ih]
    by_cases h : sd.hasJsonschemaDir = true
    · rw [collectStems_eq]
      simp [sdEntries, h]
    · simp only [Bool.not_eq_true] at h
      simp [sdEntries, h]

theorem collectVendors_eq :
    ∀ (vs : List VendorM) (acc : List SchemaEntry),
      collectVendors vs acc = acc ++ (vs.map venEntries).flatten := by
  intro vs
  induction vs with
  | nil => intro acc; simp [collectVendors]
  | cons v vs ih =>
    intro acc
    rw [collectVendors, ih, collectSds_eq]
    simp [venEntries]

theorem sdEntries_reorder (vendor : String) {s1 s2 : SchemaDirM}
    (hr : SdReorder s1 s2) :
    (sdEntries vendor s1).Perm (sdEntries vendor s2) := by
  obtain ⟨hn, hflag, hstems⟩ := hr
  rw [sdEntries, sdEntries, hn, hflag]
  by_cases h : s2.hasJsonschemaDir = true
  · simp only [h, if_true, stemEntries]
    exact hstems.map _
  · simp only [Bool.not_eq_true] at h
    simp [h]

theorem venEntries_reorder {v1 v2 : VendorM} (hr : VenReorder v1 v2) :
    (venEntries v1).Perm (venEntries v2) := by
  obtain ⟨hn, hsd⟩ := hr
  rw [venEntries, venEntries, hn]
  exact flatten_map_perm _ (fun a b h => sdEntries_reorder v2.vname h) hsd

theorem collectVendors_reorder {vs1 vs2 : List VendorM}
    (hre : RPerm VenReorder vs1 vs2) :
    (collectVendors vs1 []).Perm (collectVendors vs2 []) := by
  rw [collectVendors_eq, collectVendors_eq]
  simp only [List.nil_append]
  exact flatten_map_perm _ (fun a b h => venEntries_reorder h) hre

theorem keyLe_trans (a b c : String × List VEntry)
    (h1 : decide (a.1 ≤ b.1) = true) (h2 : decide (b.1 ≤ c.1) = true) :
    decide (a.1 ≤ c.1) = true := by
  simp only [decide_eq_true_eq] at h1 h2 ⊢
  exact le_trans h1 h2

theorem keyLe_total (a b : String × List VEntry) :
    (decide (a.1 ≤ b.1) || decide (b.1 ≤ a.1)) = true := by
  simp only [Bool.or_eq_true, decide_eq_true_eq]
  exact le_total _ _

theorem uriLe_trans (a b c : SchemaEntry)
    (h1 : decide (a.uri ≤ b.uri) = true) (h2 : decide (b.uri ≤ c.uri) = true) :
    decide (a.uri ≤ c.uri) = true := by
  simp only [decide_eq_true_eq] at h1 h2 ⊢
  exact le_trans h1 h2

theorem uriLe_total (a b : SchemaEntry) :
    (decide (a.uri ≤ b.uri) || decide (b.uri ≤ a.uri)) = true := by
  simp only [Bool.or_eq_true, decide_eq_true_eq]
  exact le_total _ _

theorem nodup_gkeys_collectCats (cats : List CategoryM) :
    (gkeys (collectCats cats [])).Nodup :=
  (collectCats_inv cats []).2.1 (by simp [gkeys])

theorem lookupD_collectCats (cats : List CategoryM) (j : String) :
    lookupD (collectCats cats []) j = recsFor j cats := by
  rw [(collectCats_inv cats []).2.2 j]
  simp [lookupD]

theorem mem_gkeys_collectCats (cats : List CategoryM) (j : String) :
    j ∈ gkeys (collectCats cats []) ↔ j ∈ encIds cats := by
  rw [(collectCats_inv cats []).1 j]
  simp [gkeys]

/-- The index entries of a snapshot with a transforms directory: one per
encountered id, holding exactly the sorted collected records. -/
theorem mem_collectTransforms (snap : Snapshot)
    (hd : snap.hasTransformsDir = true) (e : TransformEntry) :
    e ∈ collectTransforms snap ↔
      (e.id ∈ encIds snap.categories ∧
       e.versions = (recsFor e.id snap.categories).mergeSort versionLe) := by
  rw [collectTransforms]
  simp only [hd, Bool.not_true, Bool.false_eq_true, if_false]
  constructor
  · intro he
    rw [List.mem_map] at he
    obtain ⟨p, hp, hpe⟩ := he
    have hpin : p ∈ collectCats snap.categories [] :=
      (List.mergeSort_perm _ _).mem_iff.mp hp
    have hkey : p.1 ∈ gkeys (collectCats snap.categories []) :=
      List.mem_map.mpr ⟨p, hpin, rfl⟩
    have hval : lookupD (collectCats snap.categories []) p.1 = p.2 :=
      assoc_val_eq _ (nodup_gkeys_collectCats snap.categories) p hpin
    have hrec : p.2 = recsFor p.1 snap.categories := by
      rw [← hval, lookupD_collectCats]
    rw [← hpe]
    exact ⟨(mem_gkeys_collectCats snap.categories p.1).mp hkey,
      by simp only; rw [hrec]⟩
  · rintro ⟨hid, hvers⟩
    have hkey : e.id ∈ gkeys (collectCats snap.categories []) :=
      (mem_gkeys_collectCats snap.categories e.id).mpr hid
    have hpair : (e.id, lookupD (collectCats snap.categories []) e.id) ∈
        collectCats snap.categories [] :=
      pair_mem_of_gkeys _ _ hkey
    refine List.mem_map.mpr
      ⟨(e.id, lookupD (collectCats snap.categories []) e.id),
        (List.mergeSort_perm _ _).mem_iff.mpr hpair, ?_⟩
    cases e with
    | mk i vs =>
      simp only at hvers hid ⊢
      rw [lookupD_collectCats, ← hvers]

theorem nodup_ids_collectTransforms (snap : Snapshot) :
    ((collectTransforms snap).map (fun e => e.id)).Nodup := by
  rw [collectTransforms]
  by_cases hd : snap.hasTransformsDir = true
  · simp only [hd, Bool.not_true, Bool.false_eq_true, if_false]
    rw [List.map_map]
    have hperm : (((collectCats snap.categories []).mergeSort
        (fun p q => decide (p.1 ≤ q.1))).map
          ((fun e => e.id) ∘ (fun p : String × List VEntry =>
            (⟨p.1, p.2.mergeSort versionLe⟩ : TransformEntry)))).Perm
        (gkeys (collectCats snap.categories [])) :=
      (List.mergeSort_perm _ _).map _
    exact hperm.nodup_iff.mpr (nodup_gkeys_collectCats snap.categories)
  · simp only [Bool.not_eq_true] at hd
    simp [hd]

theorem sorted_ids_collectTransforms (snap : Snapshot) :
    (collectTransforms snap).Pairwise (fun e1 e2 => e1.id ≤ e2.id) := by
  rw [collectTransforms]
  by_cases hd : snap.hasTransformsDir = true
  · simp only [hd, Bool.not_true, Bool.false_eq_true, if_false]
    refine List.Pairwise.map _ ?_
      (List.sorted_mergeSort keyLe_trans keyLe_total
        (collectCats snap.categories []))
    intro a b hab
    simp only [decide_eq_true_eq] at hab
    exact hab
  · simp only [Bool.not_eq_true] at hd
    simp [hd]

theorem sortedRecs_reorder {cs1 cs2 : List CategoryM}
    (hre : RPerm CatReorder cs1 cs2)
    (hnd : ∀ id, ((recsFor id cs1).map versionKey).Nodup) :
    ∀ id, (recsFor id cs1).mergeSort versionLe =
      (recsFor id cs2).mergeSort versionLe := by
  intro id
  refine perm_pairwise_key_eq versionKey (fun x y => y ≤ x)
    (fun x y h1 h2 => le_antisymm h2 h1) _ _ ?_ ?_ ?_ ?_
  · exact (List.mergeSort_perm _ _).trans
      ((recsFor_reorder id hre).trans (List.mergeSort_perm _ _).symm)
  · refine (List.sorted_mergeSort (fun a b c => versionLe_trans a b c)
      versionLe_total _).imp ?_
    intro a b h
    simp only [versionLe, decide_eq_true_eq] at h
    exact h
  · refine (List.sorted_mergeSort (fun a b c => versionLe_trans a b c)
      versionLe_total _).imp ?_
    intro a b h
    simp only [versionLe, decide_eq_true_eq] at h
    exact h
  · exact ((List.mergeSort_perm _ _).map versionKey).nodup_iff.mpr (hnd id)

theorem collectTransforms_reorder (s1 s2 : Snapshot) (hre : SnapReorder s1 s2)
    (hnd : ∀ id, ((recsFor id s1.categories).map versionKey).Nodup) :
    collectTransforms s1 = collectTransforms s2 := by
  obtain ⟨hdt, hds, hcat, hven⟩ := hre
  by_cases hd : s1.hasTransformsDir = true
  case neg =>
    simp only [Bool.not_eq_true] at hd
    have hd2 : s2.hasTransformsDir = false := by rw [← hdt]; exact hd
    rw [collectTransforms, collectTransforms]
    simp [hd, hd2]
  case pos =>
    have hd2 : s2.hasTransformsDir = true := by rw [← hdt]; exact hd
    have hrecs := sortedRecs_reorder hcat hnd
    refine perm_pairwise_key_eq (fun e : TransformEntry => e.id) (· ≤ ·)
      (fun x y h1 h2 => le_antisymm h1 h2) _ _ ?_
      (sorted_ids_collectTransforms s1) (sorted_ids_collectTransforms s2)
      (nodup_ids_collectTransforms s1)
    refine (List.perm_ext_iff_of_nodup
      (List.Nodup.of_map _ (nodup_ids_collectTransforms s1))
      (List.Nodup.of_map _ (nodup_ids_collectTransforms s2))).mpr ?_
    intro e
    rw [mem_collectTransforms s1 hd e, mem_collectTransforms s2 hd2 e,
      hrecs e.id]
    simp [(encIds_reorder hcat).mem_iff]

theorem collectSchemas_reorder (s1 s2 : Snapshot) (hre : SnapReorder s1 s2)
    (hndu : ((collectVendors s1.vendors []).map (fun e => e.uri)).Nodup) :
    collectSchemas s1 = collectSchemas s2 := by
  obtain ⟨hdt, hds, hcat, hven⟩ := hre
  by_cases hd : s1.hasSchemasDir = true
  case neg =>
    simp only [Bool.not_eq_true] at hd
    have hd2 : s2.hasSchemasDir = false := by rw [← hds]; exact hd
    rw [collectSchemas, collectSchemas]
    simp [hd, hd2]
  case pos =>
    have hd2 : s2.hasSchemasDir = true := by rw [← hds]; exact hd
    rw [collectSchemas, collectSchemas]
    simp only [hd, hd2, Bool.not_true, Bool.false_eq_true, if_false]
    refine perm_pairwise_key_eq (fun e : SchemaEntry => e.uri) (· ≤ ·)
      (fun x y h1 h2 => le_antisymm h1 h2) _ _ ?_ ?_ ?_ ?_
    · exact (List.mergeSort_perm _ _).trans
        ((collectVendors_reorder hven).trans (List.mergeSort_perm _ _).symm)
    · refine (List.sorted_mergeSort uriLe_trans uriLe_total _).imp ?_
      intro a b h
      simp only [decide_eq_true_eq] at h
      exact h
    · refine (List.sorted_mergeSort uriLe_trans uriLe_total _).imp ?_
      intro a b h
      simp only [decide_eq_true_eq] at h
      exact h
    · exact ((List.mergeSort_perm _ _).map (fun e : SchemaEntry => e.uri)).nodup_iff.mpr hndu

/-- C9: for a fixed snapshot two builds agree on everything but the
timestamp (the collectors are pure functions of the snapshot), and the
arrays are sorted as claimed (versions descending per group, URIs
ascending); but agreement across filesystem enumeration orders needs the
declared version strings within each group, and the schema URIs, to be
duplicate-free — with those hypotheses two builds over reordered
enumerations of the same registry produce identical `transforms` and
`schemas` arrays. -/
theorem c9_index_determinism :
    (∀ (snap : Snapshot) (now1 now2 : String),
      (generate snap now1).transforms = (generate snap now2).transforms ∧
      (generate snap now1).schemas = (generate snap now2).schemas ∧
      (generate snap now1).formatVersion = (generate snap now2).formatVersion ∧
      (generate snap now1).generated_at = now1) ∧
    (∀ (s1 s2 : Snapshot) (now1 now2 : String), SnapReorder s1 s2 →
      (∀ id, ((recsFor id s1.categories).map versionKey).Nodup) →
      ((collectVendors s1.vendors []).map (fun e => e.uri)).Nodup →
      (generate s1 now1).transforms = (generate s2 now2).transforms ∧
      (generate s1 now1).schemas = (generate s2 now2).schemas) ∧
    (∀ snap : Snapshot,
      (collectSchemas snap).Pairwise (fun a b => a.uri ≤ b.uri) ∧
      ∀ e ∈ collectTransforms snap,
        e.versions.Pairwise (fun a b => versionLe a b = true)) := by
  refine ⟨fun snap now1 now2 => ⟨rfl, rfl, rfl, rfl⟩,
    fun s1 s2 now1 now2 hre hnd hndu => ?_, fun snap => ⟨?_, ?_⟩⟩
  · exact ⟨collectTransforms_reorder s1 s2 hre hnd,
      collectSchemas_reorder s1 s2 hre hndu⟩
  · rw [collectSchemas]
    by_cases hd : snap.hasSchemasDir = true
    · simp only [hd, Bool.not_true, Bool.false_eq_true, if_false]
      refine (List.sorted_mergeSort uriLe_trans uriLe_total _).imp ?_
      intro a b h
      simp only [decide_eq_true_eq] at h
      exact h
    · simp only [Bool.not_eq_true] at hd
      simp [hd]
  · intro e he
    by_cases hd : snap.hasTransformsDir = true
    · have := (mem_collectTransforms snap hd e).mp he
      rw [this.2]
      exact List.sorted_mergeSort (fun a b c => versionLe_trans a b c)
        versionLe_total _
    · rw [collectTransforms] at he
      simp only [Bool.not_eq_true] at hd
      simp [hd] at he

/-- C9 counterexample: `snapTie1` and `snapTie2` enumerate the same
registry — one transform with two version directories both declaring
version `"1.0.0"` — in the two possible orders, yet the two builds emit
different `transforms` arrays: `sort` is stable, so the tied records
stay in enumeration order.  The claim's unconditional
order-independence fails. -/
theorem c9_counterexample :
    SnapReorder snapTie1 snapTie2 ∧
    ¬ ((generate snapTie1 "t").transforms =
        (generate snapTie2 "t").transforms) := by
  have hAB : versionLe entryTieA entryTieB = true :=
    decide_eq_true (show versionKey entryTieB ≤ versionKey entryTieA from
      le_of_eq rfl)
  have hBA : versionLe entryTieB entryTieA = true :=
    decide_eq_true (show versionKey entryTieA ≤ versionKey entryTieB from
      le_of_eq rfl)
  have h1 : List.mergeSort [entryTieA, entryTieB] versionLe =
      [entryTieA, entryTieB] := by
    rw [List.mergeSort]
    show ([entryTieA].mergeSort versionLe).merge
      ([entryTieB].mergeSort versionLe) versionLe = [entryTieA, entryTieB]
    rw [List.mergeSort_singleton, List.mergeSort_singleton,
      List.cons_merge_cons_pos versionLe [] [] hAB]
    simp
  have h2 : List.mergeSort [entryTieB, entryTieA] versionLe =
      [entryTieB, entryTieA] := by
    rw [List.mergeSort]
    show ([entryTieB].mergeSort versionLe).merge
      ([entryTieA].mergeSort versionLe) versionLe = [entryTieB, entryTieA]
    rw [List.mergeSort_singleton, List.mergeSort_singleton,
      List.cons_merge_cons_pos versionLe [] [] hBA]
    simp
  have e1 : (generate snapTie1 "t").transforms =
      [⟨"payments/normalize_amount", [entryTieA, entryTieB]⟩] := by
    show collectTransforms snapTie1 = _
    rw [collectTransforms,
      if_neg (by simp [snapTie1] : ¬ ((!snapTie1.hasTransformsDir) = true))]
    have hphase : collectCats snapTie1.categories [] =
        [("payments/normalize_amount", [entryTieA, entryTieB])] := rfl
    rw [hphase, List.mergeSort_singleton, List.map_cons, List.map_nil]
    simp only
    rw [h1]
  have e2 : (generate snapTie2 "t").transforms =
      [⟨"payments/normalize_amount", [entryTieB, entryTieA]⟩] := by
    show collectTransforms snapTie2 = _
    rw [collectTransforms,
      if_neg (by simp [snapTie2] : ¬ ((!snapTie2.hasTransformsDir) = true))]
    have hphase : collectCats snapTie2.categories [] =
        [("payments/normalize_amount", [entryTieB, entryTieA])] := rfl
    rw [hphase, List.mergeSort_singleton, List.map_cons, List.map_nil]
    simp only
    rw [h2]
  refine ⟨⟨rfl, rfl, ?_, ⟨[], List.Perm.refl _, List.Forall₂.nil⟩⟩, ?_⟩
  · refine ⟨[⟨"payments", [⟨"normalize_amount", [vdTieA, vdTieB]⟩]⟩],
      List.Perm.refl _, ?_⟩
    refine List.Forall₂.cons ⟨rfl, ?_⟩ List.Forall₂.nil
    refine ⟨[⟨"normalize_amount", [vdTieA, vdTieB]⟩],
      List.Perm.refl _, ?_⟩
    refine List.Forall₂.cons ⟨rfl, ?_⟩ List.Forall₂.nil
    exact List.Perm.swap vdTieB vdTieA []
  · intro h
    rw [e1, e2] at h
    have hp := congrArg
      (fun l : List TransformEntry =>
        l.map (fun e => e.versions.map (fun v => v.path))) h
    simp only [List.map_cons, List.map_nil] at hp
    exact absurd hp (by decide)

theorem c9_witness :
    (generate snapScenario "a").transforms =
      (generate snapScenario "b").transforms ∧
    (generate snapScenario "a").schemas =
      (generate snapScenario "b").schemas := by
  have hre : SnapReorder snapScenario snapScenario := by
    refine ⟨rfl, rfl, ?_, ⟨[], List.Perm.refl _, List.Forall₂.nil⟩⟩
    refine ⟨snapScenario.categories, List.Perm.refl _, ?_⟩
    show List.Forall₂ CatReorder
      [⟨"payments", [⟨"normalize_amount",
        [⟨"1.0.0", true, .ok (.map [("version", .str "1.0.0")])⟩,
         ⟨"1.1.0", true, .ok (.map [("version", .str "1.1.0")])⟩]⟩]⟩]
      [⟨"payments", [⟨"normalize_amount",
        [⟨"1.0.0", true, .ok (.map [("version", .str "1.0.0")])⟩,
         ⟨"1.1.0", true, .ok (.map [("version", .str "1.1.0")])⟩]⟩]⟩]
    refine List.Forall₂.cons ⟨rfl, ?_⟩ List.Forall₂.nil
    refine ⟨_, List.Perm.refl _, ?_⟩
    exact List.Forall₂.cons ⟨rfl, List.Perm.refl _⟩ List.Forall₂.nil
  have hnd : ∀ id,
      ((recsFor id snapScenario.categories).map versionKey).Nodup := by
    intro id
    have hshape : recsFor id snapScenario.categories =
        (if ("payments" ++ "/" ++ "normalize_amount" == id) then
          List.filterMap (readTransformMeta "payments" "normalize_amount")
            [⟨"1.0.0", true, .ok (.map [("version", .str "1.0.0")])⟩,
             ⟨"1.1.0", true, .ok (.map [("version", .str "1.1.0")])⟩]
         else []) ++ [] ++ [] := rfl
    rw [hshape, List.append_nil, List.append_nil]
    cases hc : ("payments" ++ "/" ++ "normalize_amount" == id) with
    | true =>
      simp only [hc, if_true]
      decide
    | false => simp [hc]
  have hndu : ((collectVendors snapScenario.vendors []).map
      (fun e => e.uri)).Nodup := List.nodup_nil
  exact c9_index_determinism.2.1 snapScenario snapScenario "a" "b" hre hnd hndu

end Canonizer
